import Mathlib

/-!
Verification development for the Tukorea notice bot (tukorea_notice_bot).

The Python sources under src/tukorea_notice_bot are shallowly embedded:
pure functions become Lean functions over Lean data; Python str becomes
Lean String (a sequence of unicode scalar values); Python int becomes
Int/Nat (both unbounded, an exact match); datetime.date becomes Int (a
day number: date order is the Int order and timedelta(days=k) is
addition of k, which is all the code uses); fallible code returns
Option/Except.  ASCII restriction: Python predicates such as
str.isdigit, str.lower, str.strip and int() accept some non-ASCII
unicode classes; they are modelled on their ASCII behaviour, which all
board identifiers use.  Stateful code (file system, HTTP) is modelled
by explicit state/stream arguments.
-/

/-! ### Python string primitives (models of str methods) -/

/-- Model of the whitespace class stripped by Python str.strip and
skipped by int(): space, tab, newline, carriage return, vertical tab,
form feed (ASCII part of Python unicode whitespace). -/
def isPySpace (c : Char) : Bool :=
  c = ' ' || c = '\t' || c = '\n' || c = '\r' || c = '\x0b' || c = '\x0c'

/-- ASCII decimal digit test; the digit class accepted by int() and by
the regex class backslash-d (both restricted to ASCII in this model). -/
def isAsciiDigit (c : Char) : Bool :=
  48 ≤ c.toNat && c.toNat ≤ 57

/-- Numeric value of an ASCII digit character. -/
def digVal (c : Char) : Nat := c.toNat - 48

/-- The superscript and subscript digit characters ¹ ² ³ (U+00B9, U+00B2,
U+00B3), ⁰ and ⁴–⁹ (U+2070, U+2074–U+2079), ₀–₉ (U+2080–U+2089): they
have Unicode Numeric_Type=Digit, so str.isdigit accepts them, but they
are not decimal digits and int() raises ValueError on them. -/
def isSuperSubDigit (c : Char) : Bool :=
  c.toNat = 0xb9 || c.toNat = 0xb2 || c.toNat = 0xb3 || c.toNat = 0x2070 ||
  (0x2074 ≤ c.toNat && c.toNat ≤ 0x2079) ||
  (0x2080 ≤ c.toNat && c.toNat ≤ 0x2089)

/-- The character class of Python str.isdigit: decimal digits (ASCII
part) together with the superscript and subscript digit characters.
str.isdigit also accepts the non-ASCII decimal digits (category Nd),
which int() accepts as well; they stay outside this model. -/
def isPyDigit (c : Char) : Bool := isAsciiDigit c || isSuperSubDigit c

/-- str.strip() on a character list: drop whitespace at both ends. -/
def pyStripL (cs : List Char) : List Char :=
  ((cs.dropWhile isPySpace).reverse.dropWhile isPySpace).reverse

/-- Model of Python str.strip() with no argument. -/
def pyStrip (s : String) : String := String.mk (pyStripL s.toList)

/-- Model of Python str.isdigit(): non-empty and every character in the
isdigit class (decimal, superscript or subscript digit). -/
def pyIsDigitStr (s : String) : Bool :=
  !s.toList.isEmpty && s.toList.all isPyDigit

/-- Non-empty string of ASCII decimal digits: the strings on which the
isdigit test and acceptance by int() coincide. -/
def isAsciiDigitStr (s : String) : Bool :=
  !s.toList.isEmpty && s.toList.all isAsciiDigit

/-- ASCII model of Python str.lower(). -/
def pyLower (s : String) : String := String.mk (s.toList.map Char.toLower)

/-- Does the character list begin with the given needle? -/
def leadsWith : List Char → List Char → Bool
  | [], _ => true
  | _ :: _, [] => false
  | a :: as, b :: bs => a = b && leadsWith as bs

/-- Model of the Python substring test needle in hay. -/
def hasSubstrL (needle : List Char) : List Char → Bool
  | [] => needle.isEmpty
  | c :: rest => leadsWith needle (c :: rest) || hasSubstrL needle rest

/-- Substring test on strings: model of Python (needle in hay). -/
def hasSubstr (needle hay : String) : Bool := hasSubstrL needle.toList hay.toList

/-- Model of Python str.split(sep) for a one-character separator:
empty pieces are kept, splitting an empty string gives one empty piece. -/
def splitOnCharL (sep : Char) : List Char → List (List Char)
  | [] => [[]]
  | c :: rest =>
    if c = sep then [] :: splitOnCharL sep rest
    else
      match splitOnCharL sep rest with
      | [] => [[c]]
      | p :: ps => (c :: p) :: ps

/-- Split at the first occurrence of sep, the separator removed;
none when sep does not occur.  Model of str.split(sep, 1). -/
def splitAtFirst (sep : Char) : List Char → Option (List Char × List Char)
  | [] => none
  | c :: rest =>
    if c = sep then some ([], rest)
    else (splitAtFirst sep rest).map (fun p => (c :: p.1, p.2))

/-- Strict code-point lexicographic order on character lists: the order
Python uses to compare str values. -/
def pyStrLtL : List Char → List Char → Bool
  | [], [] => false
  | [], _ :: _ => true
  | _ :: _, [] => false
  | a :: as, b :: bs =>
    if a.toNat < b.toNat then true
    else if b.toNat < a.toNat then false
    else pyStrLtL as bs

/-- Python str comparison a < b. -/
def pyStrLt (a b : String) : Bool := pyStrLtL a.toList b.toList

/-! ### Model of Python int(str)

int() skips surrounding whitespace, accepts one optional sign, then a
non-empty ASCII digit run in which single underscores may stand
between digits (never leading, trailing or doubled). -/

/-- Consume further digits, allowing a single underscore between two
digits; returns accumulated value and the unconsumed remainder. -/
def pyDigitsRun (acc : Nat) : List Char → Nat × List Char
  | [] => (acc, [])
  | c :: rest =>
    if isAsciiDigit c then pyDigitsRun (acc * 10 + digVal c) rest
    else if c = '_' then
      match rest with
      | c2 :: rest2 =>
        if isAsciiDigit c2 then pyDigitsRun (acc * 10 + digVal c2) rest2
        else (acc, c :: rest)
      | [] => (acc, c :: rest)
    else (acc, c :: rest)

/-- After the optional sign: a leading digit, the digit run, then
only whitespace may remain. -/
def pyUIntAfterSign : List Char → Option Nat
  | c :: rest =>
    if isAsciiDigit c then
      match pyDigitsRun (digVal c) rest with
      | (v, after) => if (after.dropWhile isPySpace).isEmpty then some v else none
    else none
  | [] => none

/-- Model of Python int(s) for a str argument: some value, or none when
int raises ValueError. -/
def pyIntParse (s : String) : Option Int :=
  match s.toList.dropWhile isPySpace with
  | [] => none
  | c :: rest =>
    if c = '+' then (pyUIntAfterSign rest).map (fun v => (v : Int))
    else if c = '-' then (pyUIntAfterSign rest).map (fun v => -(v : Int))
    else (pyUIntAfterSign (c :: rest)).map (fun v => (v : Int))

/-! ### Stable sort (model of Python list.sort / sorted)

CPython sorting is stable.  For a total preorder the sorted stable
permutation of a list is unique, so any stable sorting algorithm is
extensionally the CPython one; a stable insertion sort is used here:
an element is inserted after every strictly smaller element and before
the first element not strictly smaller than it. -/

def pyInsert {α : Type} (le : α → α → Bool) (x : α) : List α → List α
  | [] => [x]
  | y :: ys => if le y x && !le x y then y :: pyInsert le x ys else x :: y :: ys

/-- Model of sorted(l, key corresponding to le); stable. -/
def pySorted {α : Type} (le : α → α → Bool) : List α → List α
  | [] => []
  | x :: xs => pyInsert le x (pySorted le xs)

theorem pyInsert_perm {α : Type} (le : α → α → Bool) (x : α) (l : List α) :
    (pyInsert le x l).Perm (x :: l) := by
  induction l with
  | nil => simp [pyInsert]
  | cons y ys ih =>
    by_cases h : (le y x && !le x y) = true
    · simp only [pyInsert, h, if_pos]
      exact (ih.cons y).trans (List.Perm.swap x y ys)
    · simp [pyInsert, h]

theorem pySorted_perm {α : Type} (le : α → α → Bool) (l : List α) :
    (pySorted le l).Perm l := by
  induction l with
  | nil => simp [pySorted]
  | cons x xs ih =>
    exact (pyInsert_perm le x (pySorted le xs)).trans (ih.cons x)

theorem mem_pySorted {α : Type} (le : α → α → Bool) (l : List α) (a : α) :
    a ∈ pySorted le l ↔ a ∈ l :=
  (pySorted_perm le l).mem_iff

theorem pyInsert_pairwise {α : Type} (le : α → α → Bool)
    (htrans : ∀ a b c, le a b = true → le b c = true → le a c = true)
    (htotal : ∀ a b, le a b = true ∨ le b a = true)
    (x : α) (l : List α) (h : l.Pairwise (fun a b => le a b = true)) :
    (pyInsert le x l).Pairwise (fun a b => le a b = true) := by
  induction l with
  | nil => simp [pyInsert]
  | cons y ys ih =>
    rcases List.pairwise_cons.mp h with ⟨hy, hys⟩
    by_cases hc : (le y x && !le x y) = true
    · simp only [pyInsert, hc, if_pos]
      refine List.pairwise_cons.mpr ⟨?_, ih hys⟩
      intro b hb
      rcases List.mem_cons.mp ((pyInsert_perm le x ys).mem_iff.mp hb) with hbx | hbys
      · subst hbx
        exact ((Bool.and_eq_true _ _).mp hc).1
      · exact hy b hbys
    · simp only [pyInsert, hc, if_neg]
      have hxy : le x y = true := by
        rcases htotal x y with h1 | h1
        · exact h1
        · by_cases h2 : le x y = true
          · exact h2
          · exact absurd (by simp [h1, h2]) hc
      refine List.pairwise_cons.mpr ⟨?_, h⟩
      intro b hb
      rcases List.mem_cons.mp hb with hb1 | hb2
      · subst hb1; exact hxy
      · exact htrans x y b hxy (hy b hb2)

theorem pySorted_pairwise {α : Type} (le : α → α → Bool)
    (htrans : ∀ a b c, le a b = true → le b c = true → le a c = true)
    (htotal : ∀ a b, le a b = true ∨ le b a = true)
    (l : List α) :
    (pySorted le l).Pairwise (fun a b => le a b = true) := by
  induction l with
  | nil => simp [pySorted]
  | cons x xs ih => exact pyInsert_pairwise le htrans htotal x (pySorted le xs) ih


/-! ### Order facts for the sort comparators -/

theorem pyStrLtL_asymm (a b : List Char) (h : pyStrLtL a b = true) :
    pyStrLtL b a = false := by
  induction a generalizing b with
  | nil =>
    cases b with
    | nil => simp [pyStrLtL] at h
    | cons y ys => simp [pyStrLtL]
  | cons x xs ih =>
    cases b with
    | nil => simp [pyStrLtL] at h
    | cons y ys =>
      simp only [pyStrLtL] at h ⊢
      by_cases h1 : x.toNat < y.toNat
      · rw [if_neg (show ¬ y.toNat < x.toNat by omega), if_pos h1]
      · by_cases h2 : y.toNat < x.toNat
        · rw [if_neg h1, if_pos h2] at h
          simp at h
        · rw [if_neg h1, if_neg h2] at h
          rw [if_neg h2, if_neg h1]
          exact ih ys h

theorem pyStrLtL_trans (a b c : List Char) (hab : pyStrLtL a b = true)
    (hbc : pyStrLtL b c = true) : pyStrLtL a c = true := by
  induction a generalizing b c with
  | nil =>
    cases b with
    | nil => simp [pyStrLtL] at hab
    | cons y ys =>
      cases c with
      | nil => simp [pyStrLtL] at hbc
      | cons z zs => simp [pyStrLtL]
  | cons x xs ih =>
    cases b with
    | nil => simp [pyStrLtL] at hab
    | cons y ys =>
      cases c with
      | nil => simp [pyStrLtL] at hbc
      | cons z zs =>
        simp only [pyStrLtL] at hab hbc ⊢
        by_cases h1 : x.toNat < y.toNat
        · by_cases h2 : y.toNat < z.toNat
          · rw [if_pos (show x.toNat < z.toNat by omega)]
          · by_cases h3 : z.toNat < y.toNat
            · rw [if_neg h2, if_pos h3] at hbc
              simp at hbc
            · rw [if_pos (show x.toNat < z.toNat by omega)]
        · by_cases h4 : y.toNat < x.toNat
          · rw [if_neg h1, if_pos h4] at hab
            simp at hab
          · rw [if_neg h1, if_neg h4] at hab
            by_cases h2 : y.toNat < z.toNat
            · rw [if_pos (show x.toNat < z.toNat by omega)]
            · by_cases h3 : z.toNat < y.toNat
              · rw [if_neg h2, if_pos h3] at hbc
                simp at hbc
              · rw [if_neg h2, if_neg h3] at hbc
                rw [if_neg (show ¬ x.toNat < z.toNat by omega),
                  if_neg (show ¬ z.toNat < x.toNat by omega)]
                exact ih ys zs hab hbc

theorem char_toNat_inj (a b : Char) (h : a.toNat = b.toNat) : a = b :=
  Char.eq_of_val_eq (UInt32.ext h)

theorem pyStrLtL_conn (a b : List Char) (hab : pyStrLtL a b = false)
    (hba : pyStrLtL b a = false) : a = b := by
  induction a generalizing b with
  | nil =>
    cases b with
    | nil => rfl
    | cons y ys => simp [pyStrLtL] at hab
  | cons x xs ih =>
    cases b with
    | nil => simp [pyStrLtL] at hba
    | cons y ys =>
      simp only [pyStrLtL] at hab hba
      by_cases h1 : x.toNat < y.toNat
      · rw [if_pos h1] at hab
        simp at hab
      · by_cases h2 : y.toNat < x.toNat
        · rw [if_pos h2] at hba
          simp at hba
        · have hxy : x = y := char_toNat_inj x y (by omega)
          rw [if_neg h1, if_neg h2] at hab
          rw [if_neg h2, if_neg h1] at hba
          rw [hxy, ih ys hab hba]

/-- Transitivity for a Bool comparator obtained from a linear-order key. -/
theorem keyLe_trans {α β : Type} [LinearOrder β] (k : α → β) :
    ∀ a b c, decide (k a ≤ k b) = true → decide (k b ≤ k c) = true →
      decide (k a ≤ k c) = true := by
  intro a b c h1 h2
  simp only [decide_eq_true_eq] at *
  exact le_trans h1 h2

/-- Totality for a Bool comparator obtained from a linear-order key. -/
theorem keyLe_total {α β : Type} [LinearOrder β] (k : α → β) :
    ∀ a b, decide (k a ≤ k b) = true ∨ decide (k b ≤ k a) = true := by
  intro a b
  simp only [decide_eq_true_eq]
  exact le_total (k a) (k b)

/-- The descending comparator used by the state store lexicographic
fallback: le a b iff not (a < b) in Python string order. -/
def lexDescLe (a b : String) : Bool := !pyStrLtL a.toList b.toList

theorem lexDescLe_trans : ∀ a b c : String, lexDescLe a b = true →
    lexDescLe b c = true → lexDescLe a c = true := by
  intro a b c h1 h2
  simp only [lexDescLe, Bool.not_eq_true'] at *
  by_cases h3 : pyStrLtL a.toList c.toList = true
  · by_cases h4 : pyStrLtL c.toList b.toList = true
    · rw [pyStrLtL_trans _ _ _ h3 h4] at h1
      exact absurd h1 (by simp)
    · have he : c.toList = b.toList :=
        pyStrLtL_conn _ _ (Bool.eq_false_iff.mpr h4) h2
      rw [he] at h3
      rw [h3] at h1
      exact absurd h1 (by simp)
  · exact Bool.eq_false_iff.mpr h3

theorem lexDescLe_total : ∀ a b : String, lexDescLe a b = true ∨ lexDescLe b a = true := by
  intro a b
  simp only [lexDescLe, Bool.not_eq_true']
  by_cases h : pyStrLtL a.toList b.toList = true
  · right
    exact pyStrLtL_asymm _ _ h
  · left
    exact Bool.eq_false_iff.mpr h

/-! ### Facts about pyIntParse -/

theorem pyDigitsRun_cons_digit (acc : Nat) (c : Char) (rest : List Char)
    (hc : isAsciiDigit c = true) :
    pyDigitsRun acc (c :: rest) = pyDigitsRun (acc * 10 + digVal c) rest := by
  cases rest with
  | nil => simp [pyDigitsRun, hc]
  | cons c2 rest2 => simp [pyDigitsRun, hc]

theorem pyDigitsRun_all_digits (cs : List Char) (h : cs.all isAsciiDigit = true) :
    ∀ acc, ∃ v, pyDigitsRun acc cs = (v, []) := by
  induction cs with
  | nil => intro acc; exact ⟨acc, rfl⟩
  | cons c rest ih =>
    intro acc
    simp only [List.all_cons, Bool.and_eq_true] at h
    rcases ih h.2 (acc * 10 + digVal c) with ⟨v, hv⟩
    refine ⟨v, ?_⟩
    rw [pyDigitsRun_cons_digit acc c rest h.1]
    exact hv

/-- A non-empty string of ASCII decimal digits is accepted by the model
of int(), with a non-negative value. -/
theorem pyIntParse_of_digits (s : String) (h : isAsciiDigitStr s = true) :
    ∃ v : Int, pyIntParse s = some v ∧ 0 ≤ v := by
  simp only [isAsciiDigitStr, Bool.and_eq_true, Bool.not_eq_true'] at h
  rcases h with ⟨hne, hall⟩
  cases hs : s.toList with
  | nil => rw [hs] at hne; simp [List.isEmpty] at hne
  | cons c cs =>
    rw [hs] at hall
    simp only [List.all_cons, Bool.and_eq_true] at hall
    have hc : isAsciiDigit c = true := hall.1
    have h48 : 48 ≤ c.toNat ∧ c.toNat ≤ 57 := by
      simpa [isAsciiDigit] using hc
    have hplus : c ≠ '+' := by
      intro he; subst he; revert h48; decide
    have hminus : c ≠ '-' := by
      intro he; subst he; revert h48; decide
    have hnw : isPySpace c = false := by
      cases hsp : isPySpace c
      · rfl
      · exfalso
        simp only [isPySpace, Bool.or_eq_true, decide_eq_true_eq] at hsp
        rcases hsp with ((((he | he) | he) | he) | he) | he <;> (subst he; revert h48; decide)
    have hdrop : (c :: cs).dropWhile isPySpace = c :: cs := by
      rw [List.dropWhile_cons, hnw]
      simp
    rcases pyDigitsRun_all_digits cs hall.2 (digVal c) with ⟨v, hv⟩
    refine ⟨(v : Int), ?_, by positivity⟩
    have hbody : pyUIntAfterSign (c :: cs) = some v := by
      simp only [pyUIntAfterSign]
      rw [if_pos hc, hv]
      simp
    unfold pyIntParse
    rw [hs, hdrop]
    simp [if_neg hplus, if_neg hminus, hbody]

/-! ### Model of the json module (json.loads / json.dumps)

Values decoded by json.loads.  Integer literals decode to int;
float literals (and NaN/Infinity) are kept as their lexeme, since no
claim under verification depends on float arithmetic or float
formatting.  Lone surrogate escapes, which CPython would keep as
unpaired surrogate code units, are replaced by U+FFFD (a Lean Char is
a unicode scalar value); no claim depends on them. -/

inductive Json where
  | null : Json
  | bool : Bool → Json
  | int : Int → Json
  | float : String → Json
  | str : String → Json
  | arr : List Json → Json
  | obj : List (String × Json) → Json

/-- JSON whitespace (the class the json scanner skips). -/
def isJsonWs (c : Char) : Bool :=
  c = ' ' || c = '\t' || c = '\n' || c = '\r'

def skipWs (cs : List Char) : List Char := cs.dropWhile isJsonWs

def hexVal (c : Char) : Option Nat :=
  if 48 ≤ c.toNat ∧ c.toNat ≤ 57 then some (c.toNat - 48)
  else if 97 ≤ c.toNat ∧ c.toNat ≤ 102 then some (c.toNat - 87)
  else if 65 ≤ c.toNat ∧ c.toNat ≤ 70 then some (c.toNat - 55)
  else none

def hex4 (a b c d : Char) : Option Nat :=
  match hexVal a, hexVal b, hexVal c, hexVal d with
  | some x, some y, some z, some w => some (((x * 16 + y) * 16 + z) * 16 + w)
  | _, _, _, _ => none

/-- Character denoted by a single unicode escape; unpaired surrogates
become U+FFFD (model note above). -/
def jsonUniChar (n : Nat) : Char :=
  if 0xD800 ≤ n ∧ n ≤ 0xDFFF then Char.ofNat 0xFFFD else Char.ofNat n

/-- One-character string escapes accepted by the json decoder. -/
def escCharJson (c : Char) : Option Char :=
  if c = '"' then some '"'
  else if c = '\\' then some '\\'
  else if c = '/' then some '/'
  else if c = 'b' then some '\x08'
  else if c = 'f' then some '\x0c'
  else if c = 'n' then some '\n'
  else if c = 'r' then some '\r'
  else if c = 't' then some '\t'
  else none

/-- Decode a JSON string body after its opening quote (strict mode:
raw control characters are rejected); returns the decoded characters
and the remainder after the closing quote.  A high surrogate escape
followed directly by a low surrogate escape is combined, as in the
CPython scanner.  The Nat fuel only enables structural recursion;
every step consumes input, so fuel = length + 1 never runs out. -/
def surrogatePairChar (n m : Nat) : Char :=
  Char.ofNat (0x10000 + (n - 0xD800) * 0x400 + (m - 0xDC00))

def parseStrBody : Nat → List Char → Option (List Char × List Char)
  | 0, _ => none
  | fuel + 1, cs =>
    match cs with
    | [] => none
    | c :: rest =>
      if c = '"' then some ([], rest)
      else if c = '\\' then
        match rest with
        | 'u' :: a :: b :: c1 :: d :: rest2 =>
          (match hex4 a b c1 d with
           | none => none
           | some n =>
             if 0xD800 ≤ n ∧ n ≤ 0xDBFF then
               match rest2 with
               | '\\' :: 'u' :: a2 :: b2 :: c2 :: d2 :: rest3 =>
                 (match hex4 a2 b2 c2 d2 with
                  | some m =>
                    if 0xDC00 ≤ m ∧ m ≤ 0xDFFF then
                      (parseStrBody fuel rest3).map
                        (fun p => (surrogatePairChar n m :: p.1, p.2))
                    else
                      (parseStrBody fuel rest2).map
                        (fun p => (jsonUniChar n :: p.1, p.2))
                  | none => none)
               | _ =>
                 (parseStrBody fuel rest2).map (fun p => (jsonUniChar n :: p.1, p.2))
             else
               (parseStrBody fuel rest2).map (fun p => (jsonUniChar n :: p.1, p.2)))
        | e :: rest2 =>
          (match escCharJson e with
           | some d => (parseStrBody fuel rest2).map (fun p => (d :: p.1, p.2))
           | none => none)
        | [] => none
      else if c.toNat < 32 then none
      else (parseStrBody fuel rest).map (fun p => (c :: p.1, p.2))

/-- Decimal value of a digit list (most significant first). -/
def digitsVal (acc : Nat) : List Char → Nat
  | [] => acc
  | c :: rest => digitsVal (acc * 10 + digVal c) rest

/-- Parse a JSON number at the head of the input: optional minus, an
integer part without leading zeros, optional fraction and exponent.
No fraction and no exponent gives an int (as json.loads does). -/
def parseNumAt (cs : List Char) : Option (Json × List Char) :=
  let signed : Bool × List Char :=
    match cs with
    | '-' :: r => (true, r)
    | _ => (false, cs)
  match signed.1, signed.2 with
  | neg, c :: r =>
    if isAsciiDigit c then
      let ds : List Char := if c = '0' then [] else r.takeWhile isAsciiDigit
      let afterInt : List Char := if c = '0' then r else r.drop ds.length
      let intDigits : List Char := c :: ds
      let fracDigits : List Char :=
        match afterInt with
        | '.' :: r2 => r2.takeWhile isAsciiDigit
        | _ => []
      let afterFrac : List Char :=
        match afterInt with
        | '.' :: r2 => r2.drop fracDigits.length
        | _ => afterInt
      let hasFrac : Bool :=
        match afterInt with
        | '.' :: _ => true
        | _ => false
      if hasFrac ∧ fracDigits = [] then none
      else
        let expLen : Option Nat :=
          match afterFrac with
          | 'e' :: '+' :: r3 =>
            (if (r3.takeWhile isAsciiDigit) = [] then none
             else some (2 + (r3.takeWhile isAsciiDigit).length))
          | 'e' :: '-' :: r3 =>
            (if (r3.takeWhile isAsciiDigit) = [] then none
             else some (2 + (r3.takeWhile isAsciiDigit).length))
          | 'e' :: r3 =>
            (if (r3.takeWhile isAsciiDigit) = [] then none
             else some (1 + (r3.takeWhile isAsciiDigit).length))
          | 'E' :: '+' :: r3 =>
            (if (r3.takeWhile isAsciiDigit) = [] then none
             else some (2 + (r3.takeWhile isAsciiDigit).length))
          | 'E' :: '-' :: r3 =>
            (if (r3.takeWhile isAsciiDigit) = [] then none
             else some (2 + (r3.takeWhile isAsciiDigit).length))
          | 'E' :: r3 =>
            (if (r3.takeWhile isAsciiDigit) = [] then none
             else some (1 + (r3.takeWhile isAsciiDigit).length))
          | _ => some 0
        match expLen with
        | none =>
          -- an e/E present but with no digits: the number token ends
          -- before it only if a valid token already ended; json then
          -- fails on the stray character, modelled as failure here
          -- only when the e is directly part of this token attempt
          (if hasFrac then
             some (Json.float (String.mk ((if neg then ['-'] else []) ++ intDigits ++ '.' :: fracDigits)), afterFrac)
           else
             some (Json.int ((if neg then -1 else 1) * (digitsVal 0 intDigits : Int)), afterInt))
        | some 0 =>
          (if hasFrac then
             some (Json.float (String.mk ((if neg then ['-'] else []) ++ intDigits ++ '.' :: fracDigits)), afterFrac)
           else
             some (Json.int ((if neg then -1 else 1) * (digitsVal 0 intDigits : Int)), afterInt))
        | some k =>
          some (Json.float (String.mk ((if neg then ['-'] else []) ++ intDigits ++
                 (if hasFrac then '.' :: fracDigits else []) ++ afterFrac.take k)),
                afterFrac.drop k)
    else none
  | _, [] => none

mutual

/-- Model of the json.loads scanner for a single value; the Nat fuel
only bounds recursion depth and is chosen large enough at the top
level (see jsonParse) that it never runs out. -/
def parseJsonValue : Nat → List Char → Option (Json × List Char)
  | 0, _ => none
  | fuel + 1, cs =>
    match skipWs cs with
    | '"' :: rest =>
      (parseStrBody (rest.length + 1) rest).map (fun p => (Json.str (String.mk p.1), p.2))
    | '[' :: rest =>
      (match skipWs rest with
       | ']' :: rest2 => some (Json.arr [], rest2)
       | cs2 => (parseJsonItems fuel cs2).map (fun p => (Json.arr p.1, p.2)))
    | '\x7b' :: rest =>
      (match skipWs rest with
       | '\x7d' :: rest2 => some (Json.obj [], rest2)
       | cs2 => (parseJsonMembers fuel cs2).map (fun p => (Json.obj p.1, p.2)))
    | 't' :: 'r' :: 'u' :: 'e' :: rest => some (Json.bool true, rest)
    | 'f' :: 'a' :: 'l' :: 's' :: 'e' :: rest => some (Json.bool false, rest)
    | 'n' :: 'u' :: 'l' :: 'l' :: rest => some (Json.null, rest)
    | 'N' :: 'a' :: 'N' :: rest => some (Json.float "nan", rest)
    | 'I' :: 'n' :: 'f' :: 'i' :: 'n' :: 'i' :: 't' :: 'y' :: rest =>
      some (Json.float "inf", rest)
    | '-' :: 'I' :: 'n' :: 'f' :: 'i' :: 'n' :: 'i' :: 't' :: 'y' :: rest =>
      some (Json.float "-inf", rest)
    | cs2 => parseNumAt cs2

/-- One or more comma-separated array items followed by the closing
bracket. -/
def parseJsonItems : Nat → List Char → Option (List Json × List Char)
  | 0, _ => none
  | fuel + 1, cs =>
    match parseJsonValue fuel cs with
    | none => none
    | some (v, rest) =>
      match skipWs rest with
      | ',' :: rest2 => (parseJsonItems fuel rest2).map (fun p => (v :: p.1, p.2))
      | ']' :: rest2 => some ([v], rest2)
      | _ => none

/-- One or more comma-separated object members followed by the closing
brace. -/
def parseJsonMembers : Nat → List Char → Option (List (String × Json) × List Char)
  | 0, _ => none
  | fuel + 1, cs =>
    match skipWs cs with
    | '"' :: rest =>
      (match parseStrBody (rest.length + 1) rest with
       | none => none
       | some (key, rest2) =>
         match skipWs rest2 with
         | ':' :: rest3 =>
           (match parseJsonValue fuel rest3 with
            | none => none
            | some (v, rest4) =>
              match skipWs rest4 with
              | ',' :: rest5 =>
                (parseJsonMembers fuel rest5).map
                  (fun p => ((String.mk key, v) :: p.1, p.2))
              | '\x7d' :: rest5 => some ([(String.mk key, v)], rest5)
              | _ => none)
         | _ => none)
    | _ => none

end

/-- Model of json.loads: none models json.JSONDecodeError.  The fuel
4 * length + 8 strictly dominates the recursion depth, since every
two nested parser calls consume at least one input character. -/
def jsonParse (s : String) : Option Json :=
  let cs := s.toList
  match parseJsonValue (4 * cs.length + 8) cs with
  | some (v, rest) => if (skipWs rest).isEmpty then some v else none
  | none => none

/-! ### Model of json.dumps(data, ensure_ascii=False, indent=2)

Only the value shape written by save_seen_ids is needed:
a dict with the single key "seen_ids" holding a list of str. -/

/-- Lowercase hex digit (as the %04x format of the json encoder). -/
def hexDigitLower (n : Nat) : Char :=
  if n < 10 then Char.ofNat (48 + n) else Char.ofNat (87 + n)

/-- Escaping of one character inside a JSON string literal by the json
encoder with ensure_ascii=False: quote, backslash and control
characters are escaped (control characters without a short escape via
a unicode escape), everything else is written raw. -/
def escJsonChar (c : Char) : List Char :=
  if c = '"' then ['\\', '"']
  else if c = '\\' then ['\\', '\\']
  else if c = '\x08' then ['\\', 'b']
  else if c = '\x0c' then ['\\', 'f']
  else if c = '\n' then ['\\', 'n']
  else if c = '\r' then ['\\', 'r']
  else if c = '\t' then ['\\', 't']
  else if c.toNat < 32 then
    ['\\', 'u', '0', '0', hexDigitLower (c.toNat / 16), hexDigitLower (c.toNat % 16)]
  else [c]

def escJsonL : List Char → List Char
  | [] => []
  | c :: cs => escJsonChar c ++ escJsonL cs

/-- One array item as dumped: a quoted escaped string literal. -/
def dumpsItem (s : String) : List Char :=
  '"' :: (escJsonL s.toList ++ ['"'])

/-- The rest of the dumped array after the first item: either the
closing of array and object, or a comma, a newline, the 4-space item
indent, the next item, and the rest. -/
def dumpsTail : List String → List Char
  | [] => ['\n', ' ', ' ', ']', '\n', '\x7d']
  | s :: rest => ',' :: '\n' :: ' ' :: ' ' :: ' ' :: ' ' :: (dumpsItem s ++ dumpsTail rest)

/-- json.dumps of a dict with the one key seen_ids holding a str list,
with ensure_ascii=False and indent=2, as a character list. -/
def dumpsSeenL : List String → List Char
  | [] => "\x7b\n  \"seen_ids\": []\n\x7d".toList
  | s :: rest =>
    "\x7b\n  \"seen_ids\": [\n    ".toList ++ (dumpsItem s ++ dumpsTail rest)

def dumpsSeen (ids : List String) : String := String.mk (dumpsSeenL ids)

/-! ### Models of Python str() and iteration over decoded json values -/

mutual

/-- Model of Python repr() on a json.loads result.  For str an
approximation is used (single quotes, no inner-quote escaping); for a
float the parsed lexeme stands in for the float repr.  No claim under
verification evaluates these two cases. -/
def pyRepr : Json → String
  | .null => "None"
  | .bool true => "True"
  | .bool false => "False"
  | .int n => toString n
  | .float lit => lit
  | .str s => String.mk ('\x27' :: s.toList ++ ['\x27'])
  | .arr xs => String.mk ('[' :: (pyReprItems xs).toList ++ [']'])
  | .obj kvs => String.mk ('\x7b' :: (pyReprMembers kvs).toList ++ ['\x7d'])

def pyReprItems : List Json → String
  | [] => ""
  | [x] => pyRepr x
  | x :: y :: rest => String.mk ((pyRepr x).toList ++ ',' :: ' ' :: (pyReprItems (y :: rest)).toList)

def pyReprMembers : List (String × Json) → String
  | [] => ""
  | [kv] => String.mk ('\x27' :: kv.1.toList ++ '\x27' :: ':' :: ' ' :: (pyRepr kv.2).toList)
  | kv :: kv2 :: rest =>
    String.mk ('\x27' :: kv.1.toList ++ '\x27' :: ':' :: ' ' :: (pyRepr kv.2).toList ++
      ',' :: ' ' :: (pyReprMembers (kv2 :: rest)).toList)

end

/-- Model of Python str() on a json.loads result: identity on str,
repr-like on everything else. -/
def pyStr : Json → String
  | .str s => s
  | j => pyRepr j

/-- Model of dict.get(key, default): json dicts keep the last binding
of a repeated key. -/
def dictGet (key : String) (kvs : List (String × Json)) : Option Json :=
  kvs.foldl (fun acc kv => if kv.1 = key then some kv.2 else acc) none

/-- Model of Python iteration over a decoded json value: a list yields
its elements, a str its characters, a dict its keys; numbers, booleans
and None are not iterable (TypeError). -/
def pyIterElems : Json → Option (List Json)
  | .arr xs => some xs
  | .str s => some (s.toList.map (fun c => Json.str (String.mk [c])))
  | .obj kvs => some (kvs.map (fun kv => Json.str kv.1))
  | _ => none

/-! ### state.py: load_seen_ids / save_seen_ids / diff_new_notices -/

/-- The state of the persisted state file. -/
inductive PyFile where
  | absent : PyFile
  | content : String → PyFile

/-- Exceptions that can escape the embedded functions. -/
inductive PyExc where
  | attributeError : PyExc
  | typeError : PyExc
  | fileNotFoundError : PyExc
deriving DecidableEq

/-- Model of state.load_seen_ids, lines 20-37 of state.py.  The
returned Python set of trimmed strings is modelled as a List with
dedup (membership is what the callers use).  FileNotFoundError and
json.JSONDecodeError are caught and give the empty set; json content
whose top level is not a dict raises AttributeError at data.get, and a
seen_ids entry that is not iterable raises TypeError at the set
comprehension. -/
def load_seen_ids (file : PyFile) : Except PyExc (List String) :=
  match file with
  | .absent => .ok []
  | .content raw =>
    match jsonParse raw with
    | none => .ok []
    | some data =>
      match data with
      | .obj kvs =>
        (match dictGet "seen_ids" kvs with
         | none => .ok []
         | some v =>
           match pyIterElems v with
           | none => .error .typeError
           | some xs => .ok ((xs.map (fun x => pyStrip (pyStr x))).dedup))
      | _ => .error .attributeError

/-- Comparator for the numeric branch of save_seen_ids: descending by
int(x); total on inputs where int() succeeds (getD is never hit
there). -/
def numDescLe (a b : String) : Bool :=
  decide ((pyIntParse b).getD 0 ≤ (pyIntParse a).getD 0)

/-- Model of the pure part of state.save_seen_ids, lines 40-53 of
state.py: trim the ids into a set (modelled as a dedup list whose
order stands for the arbitrary Python set iteration order), sort
descending by int(x) when every id parses, otherwise descending
lexicographically, and keep the first max_size entries. -/
def save_trimmed (seen_ids : List String) (max_size : Nat) : List String :=
  let ids_set := (seen_ids.map pyStrip).dedup
  let sorted_ids :=
    if ids_set.all (fun x => (pyIntParse x).isSome) then
      pySorted numDescLe ids_set
    else
      pySorted lexDescLe ids_set
  sorted_ids.take max_size

/-- File-system state around the save target path. -/
structure FsState where
  parentExists : Bool
  file : Option String
deriving DecidableEq

/-- Model of state.save_seen_ids, lines 40-59: the serialized JSON is
written to the target path by a single Path.write_text call.
write_text opens the target with mode w (truncating) and writes; it
raises FileNotFoundError when the parent directory is absent; no
directory is created and no temporary file is used. -/
def save_seen_ids (seen_ids : List String) (max_size : Nat) (fs : FsState) :
    Except PyExc FsState :=
  if fs.parentExists then
    .ok { parentExists := true, file := some (dumpsSeen (save_trimmed seen_ids max_size)) }
  else
    .error .fileNotFoundError

/-- The file-system state if the process dies after k characters of
the single write_text call: the target was already truncated and
holds only the first k characters of the new content. -/
def save_seen_ids_crash (seen_ids : List String) (max_size : Nat) (fs : FsState)
    (k : Nat) : FsState :=
  { parentExists := fs.parentExists,
    file := some (String.mk ((dumpsSeenL (save_trimmed seen_ids max_size)).take k)) }

/-- load_seen_ids applied to a file-system state. -/
def loadFs (fs : FsState) : Except PyExc (List String) :=
  match fs.file with
  | none => load_seen_ids .absent
  | some c => load_seen_ids (.content c)

/-! ### models.py: Notice -/

/-- Model of models.Notice (a frozen dataclass).  date is a day
number (see the header). -/
structure Notice where
  id : String
  title : String
  url : String
  category : String
  writer : String
  date : Int
  views : Option Int
  has_attachment : Bool
deriving DecidableEq

/-! ### state.py: diff_new_notices -/

/-- The filtering loop of diff_new_notices (lines 87-112 of state.py):
keep a notice unless its trimmed id is in seen, or the date filter is
on and its date is before the cutoff. -/
def diffKeep (seen : List String) (filter_by_date : Bool) (cutoff_date : Int) :
    List Notice → List Notice
  | [] => []
  | n :: rest =>
    if pyStrip n.id ∈ seen then diffKeep seen filter_by_date cutoff_date rest
    else if filter_by_date && decide (n.date < cutoff_date) then
      diffKeep seen filter_by_date cutoff_date rest
    else n :: diffKeep seen filter_by_date cutoff_date rest

/-- The sort key int(str(n.id)) of the final sort (line 116); defined
on the survivors only after every id has been checked to parse. -/
def diffSortKey (n : Notice) : Int := (pyIntParse n.id).getD 0

/-- Ascending comparator by the numeric id key. -/
def numAscLe (a b : Notice) : Bool := decide (diffSortKey a ≤ diffSortKey b)

/-- Model of new_list.sort(key=lambda n: int(str(n.id))) inside
try/except ValueError (lines 115-118): CPython computes all keys
first; if any int() raises, the list is left unchanged (the except
path), otherwise it is sorted stably ascending by the key. -/
def pySortByIntId (l : List Notice) : List Notice :=
  if l.all (fun n => (pyIntParse n.id).isSome) then pySorted numAscLe l
  else l

/-- Model of state.diff_new_notices, lines 63-129 of state.py.
seen_ids is the iteration order of the given collection; today is
date.today() at call time, used only when reference_date is none. -/
def diff_new_notices (notices : List Notice) (seen_ids : List String)
    (filter_by_date : Bool) (date_range_days : Int)
    (reference_date : Option Int) (todayDate : Int) : List Notice :=
  let seen := (seen_ids.map pyStrip).dedup
  let today := reference_date.getD todayDate
  let cutoff_date := today - (date_range_days - 1)
  pySortByIntId (diffKeep seen filter_by_date cutoff_date notices)

/-! ### crawler.py: _extract_notice_id and its helpers

urllib.parse.urlparse and parse_qs are modelled after CPython
urllib/parse.py: unsafe bytes (tab, CR, LF) are removed, then scheme,
netloc, fragment, query and params are split off; parse_qs splits the
query on &, drops fields without = or with an empty value, and
percent-plus-decodes names and values (percent decoding is modelled
per byte, which matches CPython on ASCII).  Only path and query are
kept, the rest of the result is unused by the crawler. -/

def schemeChar (c : Char) : Bool :=
  c.isAlpha || isAsciiDigit c || c = '+' || c = '-' || c = '.'

/-- Schemes for which urlparse splits params off the path (the
uses_params list of urllib.parse); the empty scheme of relative hrefs
is in the list. -/
def usesParams : List String :=
  ["", "ftp", "hdl", "prospero", "http", "imap", "https", "shttp", "rtsp",
   "rtspu", "sip", "sips", "mms", "sftp", "tel"]

/-- Index of the last slash, if any. -/
def lastSlashIdx (cs : List Char) : Option Nat :=
  (cs.reverse.findIdx? (fun c => c = '/')).map (fun j => cs.length - 1 - j)

/-- _splitparams: drop ;params from the last path segment. -/
def splitParams (cs : List Char) : List Char :=
  match lastSlashIdx cs with
  | some i =>
    (match (cs.drop i).findIdx? (fun c => c = ';') with
     | some j => cs.take (i + j)
     | none => cs)
  | none =>
    (match cs.findIdx? (fun c => c = ';') with
     | some j => cs.take j
     | none => cs)

structure UrlParts where
  path : String
  query : String

/-- Model of urllib.parse.urlparse keeping path and query. -/
def urlparsePathQuery (href : String) : UrlParts :=
  let cs0 := href.toList.filter (fun c => !(c = '\t' || c = '\n' || c = '\r'))
  let schemeSplit : String × List Char :=
    match splitAtFirst ':' cs0 with
    | some (bef, aft) =>
      (match bef with
       | c :: _ =>
         if c.isAlpha && bef.all schemeChar then (pyLower (String.mk bef), aft)
         else ("", cs0)
       | [] => ("", cs0))
    | none => ("", cs0)
  let scheme := schemeSplit.1
  let cs1 := schemeSplit.2
  let cs2 :=
    match cs1 with
    | '/' :: '/' :: rest => rest.dropWhile (fun c => !(c = '/' || c = '?' || c = '#'))
    | _ => cs1
  let cs3 :=
    match splitAtFirst '#' cs2 with
    | some (bef, _) => bef
    | none => cs2
  let pq : List Char × List Char :=
    match splitAtFirst '?' cs3 with
    | some (bef, aft) => (bef, aft)
    | none => (cs3, [])
  let path :=
    if scheme ∈ usesParams ∧ ';' ∈ pq.1 then splitParams pq.1 else pq.1
  { path := String.mk path, query := String.mk pq.2 }

/-- Percent-plus decoding of one query field component, modelled per
byte (ASCII-faithful): + becomes a space, a valid %XX becomes the
character with that code, an invalid % stays literal. -/
def unquotePlusL : List Char → List Char
  | [] => []
  | '+' :: rest => ' ' :: unquotePlusL rest
  | '%' :: a :: b :: rest =>
    (match hexVal a, hexVal b with
     | some x, some y => Char.ofNat (x * 16 + y) :: unquotePlusL rest
     | _, _ => '%' :: unquotePlusL (a :: b :: rest))
  | c :: rest => c :: unquotePlusL rest

/-- Model of urllib.parse.parse_qsl with the defaults: split the query
on &, skip empty fields, fields without =, and fields with an empty
value, decode names and values. -/
def parse_qsl (query : String) : List (String × String) :=
  (splitOnCharL '&' query.toList).filterMap (fun field =>
    match field with
    | [] => none
    | _ =>
      match splitAtFirst '=' field with
      | none => none
      | some (n, v) =>
        if v.isEmpty then none
        else some (String.mk (unquotePlusL n), String.mk (unquotePlusL v)))

/-- Insert one binding into the grouped dict (insertion order of first
key occurrence, values appended in order). -/
def addKV (k v : String) : List (String × List String) → List (String × List String)
  | [] => [(k, [v])]
  | (k2, vs) :: rest =>
    if k2 = k then (k2, vs ++ [v]) :: rest else (k2, vs) :: addKV k v rest

/-- Model of urllib.parse.parse_qs: parse_qsl grouped by key. -/
def parse_qs (query : String) : List (String × List String) :=
  (parse_qsl query).foldl (fun acc kv => addKV kv.1 kv.2 acc) []

/-- The id-like key tokens of _extract_notice_id. -/
def idTokens : List String := ["artcl", "article", "id", "idx", "no", "seq"]

/-- Strategy (a) of _extract_notice_id (lines 44-51 of crawler.py):
scan the parsed query parameters in dict order; for a key containing
an id token, return the first stripped all-digit value; a matching key
without such a value does not stop the scan. -/
def qsScan : List (String × List String) → Option String
  | [] => none
  | (k, vs) :: rest =>
    if idTokens.any (fun t => hasSubstr t (pyLower k)) then
      match (vs.map pyStrip).find? pyIsDigitStr with
      | some c => some c
      | none => qsScan rest
    else qsScan rest

def queryStringId (href : String) : Option String :=
  qsScan (parse_qs (urlparsePathQuery href).query)

/-- The literal tail of NOTICE_ID_PATTERN after the digit group. -/
def artclTail : List Char := "/artclView.do".toList

/-- Does NOTICE_ID_PATTERN match at this position: a slash, at least
one digit, then /artclView.do; the digit run is maximal (the regex
cannot backtrack into a digit here). -/
def patAt : List Char → Option String
  | [] => none
  | c :: rest =>
    if c = '/' then
      (if !(rest.takeWhile isAsciiDigit).isEmpty &&
          leadsWith artclTail (rest.drop (rest.takeWhile isAsciiDigit).length) then
        some (String.mk (rest.takeWhile isAsciiDigit))
      else none)
    else none

/-- re.search of NOTICE_ID_PATTERN: leftmost match wins.  The source
searches the raw href, not the parsed path. -/
def patSearch : List Char → Option String
  | [] => none
  | c :: rest =>
    match patAt (c :: rest) with
    | some s => some s
    | none => patSearch rest

def pathPatternId (href : String) : Option String := patSearch href.toList

/-- First of the longest elements (max with key=len returns the first
maximum). -/
def longestFirst : List (List Char) → Option (List Char)
  | [] => none
  | x :: xs => some (xs.foldl (fun acc s => if s.length > acc.length then s else acc) x)

/-- Strategy (c): the longest path segment passing str.isdigit
(lines 59-62 of crawler.py). -/
def digitSegmentId (href : String) : Option String :=
  let segs := (splitOnCharL '/' (urlparsePathQuery href).path.toList).filter
    (fun s => !s.isEmpty && s.all isPyDigit)
  (longestFirst segs).map String.mk

/-- Model of crawler._extract_notice_id, lines 34-64 of crawler.py:
query-string values, then the /<digits>/artclView.do pattern, then the
longest all-digit path segment; none when nothing matches. -/
def _extract_notice_id (href : String) : Option String :=
  match queryStringId href with
  | some c => some c
  | none =>
    match pathPatternId href with
    | some m => some m
    | none => digitSegmentId href

/-! ### crawler.py: parse_notices and its field helpers

A parsed markup row is abstracted as the data the BeautifulSoup probes
of parse_notices extract from it: the first link with an href, the td
cells, the span/div/dd fallback cells, the row text, and the
img/span/i tags inspected for the attachment flag.  Cell and tag texts
stand for get_text(strip=True) results.  Date parsing (strptime over
the format list, and the free-text date regex with calendar
validation) and urljoin do not influence any claim under verification
and are abstracted as parameters of the parse environment. -/

structure Cell where
  classes : List String
  text : String
deriving DecidableEq

structure LinkTag where
  href : String
  text : String
deriving DecidableEq

structure IconTag where
  alt : String
  title : String
  classes : List String
  text : String
deriving DecidableEq

structure Row where
  link : Option LinkTag
  tds : List Cell
  subs : List Cell
  allText : String
  icons : List IconTag
deriving DecidableEq

structure ParseEnv where
  parseDateCell : String → Option Int
  dateFromText : String → Option Int
  joinUrl : String → String → String
  todayDate : Int

/-- Model of crawler._parse_views (lines 106-111): strip commas and
whitespace, parse with int(); None on ValueError. -/
def _parse_views (text : String) : Option Int :=
  pyIntParse (String.mk ((text.toList.filter (fun c => c ≠ ','))))

/-- Model of crawler._extract_category (lines 114-120): first td whose
class contains category or cate, else the second cell, else empty. -/
def _extract_category (tds cells : List Cell) : String :=
  match tds.find? (fun cell =>
      cell.classes.any (fun cl => hasSubstr "category" cl || hasSubstr "cate" cl)) with
  | some cell => cell.text
  | none =>
    match cells with
    | _ :: c2 :: _ => c2.text
    | _ => ""

/-- Model of crawler._extract_writer (lines 123-130): first cell whose
class contains writer or name, else the third-from-last cell when
there are at least three, else the last cell, else empty. -/
def _extract_writer (cells : List Cell) : String :=
  match cells.find? (fun cell =>
      cell.classes.any (fun cl => hasSubstr "writer" cl || hasSubstr "name" cl)) with
  | some cell => cell.text
  | none =>
    if cells.length ≥ 3 then
      (match cells.drop (cells.length - 3) with
       | c :: _ => c.text
       | [] => "")
    else
      match cells.getLast? with
      | some c => c.text
      | none => ""

/-- Model of crawler._extract_date_cell (lines 133-142): first cell
whose class contains date, else the second-to-last, else the last. -/
def _extract_date_cell (cells : List Cell) : Option Cell :=
  match cells.find? (fun cell => cell.classes.any (fun cl => hasSubstr "date" cl)) with
  | some cell => some cell
  | none =>
    if cells.length ≥ 2 then
      (match cells.drop (cells.length - 2) with
       | c :: _ => some c
       | [] => none)
    else cells.getLast?

/-- Model of crawler._extract_views_cell (lines 145-150): first cell
whose class contains view or hit, else the last cell. -/
def _extract_views_cell (cells : List Cell) : Option Cell :=
  match cells.find? (fun cell =>
      cell.classes.any (fun cl => hasSubstr "view" cl || hasSubstr "hit" cl)) with
  | some cell => some cell
  | none => cells.getLast?

/-- Model of crawler._has_attachment (lines 153-168). -/
def attachKeywords : List String := ["file", "첨부", "attach"]

def _has_attachment (icons : List IconTag) : Bool :=
  icons.any (fun t =>
    attachKeywords.any (fun k => hasSubstr k (pyLower t.alt)) ||
    attachKeywords.any (fun k => hasSubstr k (pyLower t.title)) ||
    attachKeywords.any (fun k => hasSubstr k (pyLower (String.intercalate " " t.classes))) ||
    attachKeywords.any (fun k => hasSubstr k (pyLower t.text)))

/-- The cell list parse_notices works from (lines 254-256): the td
cells, or the span/div/dd elements when there are no tds. -/
def rowCells (row : Row) : List Cell :=
  if row.tds.isEmpty then row.subs else row.tds

/-- The date of one row (lines 263-277): the date cell parsed by
_parse_date, else a date found in the row text, else today. -/
def rowDate (env : ParseEnv) (row : Row) : Int :=
  let d1 :=
    match _extract_date_cell (rowCells row) with
    | some c => env.parseDateCell c.text
    | none => none
  let d2 :=
    match d1 with
    | some d => some d
    | none => env.dateFromText row.allText
  d2.getD env.todayDate

/-- The views of one row (lines 279-280): the views cell parsed by
_parse_views, None when there is no cell. -/
def rowViews (row : Row) : Option Int :=
  match _extract_views_cell (rowCells row) with
  | some c => _parse_views c.text
  | none => none

/-- Model of crawler.parse_notices, lines 231-296: rows without a link
or without an extractable id are skipped, every other row yields one
Notice, in order. -/
def parse_notices (env : ParseEnv) (base_url : String) : List Row → List Notice
  | [] => []
  | row :: rest =>
    match row.link with
    | none => parse_notices env base_url rest
    | some link =>
      let href := pyStrip link.href
      match _extract_notice_id href with
      | none => parse_notices env base_url rest
      | some notice_id =>
        let cells := rowCells row
        { id := notice_id
          title := link.text
          url := env.joinUrl base_url href
          category := _extract_category row.tds cells
          writer := if cells.isEmpty then "" else _extract_writer cells
          date := rowDate env row
          views := rowViews row
          has_attachment := _has_attachment row.icons } :: parse_notices env base_url rest

/-! ### notifier.py: _post_with_rate_limit

A run of the retry loop for one payload is driven by the stream of
webhook statuses the successive attempts would get.  Wall-clock
sleeping does not influence the claim (bounded number of attempts),
so time.sleep is not modelled.  none means the loop is still running
after the given number of attempts. -/

inductive PostResult where
  | delivered : PostResult
  | raised : Nat → PostResult
deriving DecidableEq

/-- requests raise_for_status: raises for 4xx and 5xx statuses. -/
def raiseForStatusErrs (s : Nat) : Bool := 400 ≤ s && s < 600

/-- Model of notifier._post_with_rate_limit (lines 17-35): attempt i
gets status responses i; a 429 sleeps and retries, anything else
returns (raising for error statuses). -/
def _post_with_rate_limit (responses : Nat → Nat) : Nat → Nat → Option PostResult
  | 0, _ => none
  | attempts + 1, i =>
    let s := responses i
    if s = 429 then _post_with_rate_limit responses attempts (i + 1)
    else if raiseForStatusErrs s then some (.raised s)
    else some .delivered

/-- The retry loop never returns within any bound: the claim of a
bounded number of attempts fails on such a stream. -/
def loopsForever (responses : Nat → Nat) : Prop :=
  ∀ attempts, _post_with_rate_limit responses attempts 0 = none

/-- A webhook that always answers 429. -/
def always429 : Nat → Nat := fun _ => 429

/-! ### Lemmas about diff_new_notices -/

theorem mem_diffKeep (seen : List String) (fb : Bool) (cutoff : Int)
    (notices : List Notice) (n : Notice) :
    n ∈ diffKeep seen fb cutoff notices ↔
      (n ∈ notices ∧ pyStrip n.id ∉ seen ∧ ¬(fb = true ∧ n.date < cutoff)) := by
  induction notices with
  | nil => simp [diffKeep]
  | cons m rest ih =>
    by_cases h1 : pyStrip m.id ∈ seen
    · rw [diffKeep, if_pos h1, ih]
      constructor
      · intro ⟨ha, hb, hc⟩
        exact ⟨List.mem_cons_of_mem m ha, hb, hc⟩
      · intro ⟨ha, hb, hc⟩
        rcases List.mem_cons.mp ha with he | ha2
        · subst he; exact absurd h1 hb
        · exact ⟨ha2, hb, hc⟩
    · by_cases h2 : (fb && decide (m.date < cutoff)) = true
      · rw [diffKeep, if_neg h1, if_pos h2, ih]
        simp only [Bool.and_eq_true, decide_eq_true_eq] at h2
        constructor
        · intro ⟨ha, hb, hc⟩
          exact ⟨List.mem_cons_of_mem m ha, hb, hc⟩
        · intro ⟨ha, hb, hc⟩
          rcases List.mem_cons.mp ha with he | ha2
          · subst he; exact absurd h2 hc
          · exact ⟨ha2, hb, hc⟩
      · rw [diffKeep, if_neg h1, if_neg h2]
        simp only [Bool.and_eq_true, decide_eq_true_eq] at h2
        constructor
        · intro hmem
          rcases List.mem_cons.mp hmem with he | hrest
          · subst he
            exact ⟨List.mem_cons_self _ _, h1, h2⟩
          · rcases ih.mp hrest with ⟨ha, hb, hc⟩
            exact ⟨List.mem_cons_of_mem m ha, hb, hc⟩
        · intro ⟨ha, hb, hc⟩
          rcases List.mem_cons.mp ha with he | ha2
          · subst he; exact List.mem_cons_self _ _
          · exact List.mem_cons_of_mem m (ih.mpr ⟨ha2, hb, hc⟩)

theorem mem_pySortByIntId (l : List Notice) (n : Notice) :
    n ∈ pySortByIntId l ↔ n ∈ l := by
  unfold pySortByIntId
  by_cases h : l.all (fun n => (pyIntParse n.id).isSome) = true
  · rw [if_pos h]
    exact mem_pySorted numAscLe l n
  · rw [if_neg h]

theorem diff_new_notices_eq_sort_keep (notices : List Notice) (seen_ids : List String)
    (fb : Bool) (w ref todayD : Int) :
    diff_new_notices notices seen_ids fb w (some ref) todayD =
      pySortByIntId (diffKeep ((seen_ids.map pyStrip).dedup) fb (ref - (w - 1)) notices) := rfl

theorem diffKeep_nil_false (cutoff : Int) (notices : List Notice) :
    diffKeep [] false cutoff notices = notices := by
  induction notices with
  | nil => rfl
  | cons m rest ih =>
    rw [diffKeep, if_neg (by simp), if_neg (by simp)]
    rw [ih]

/-- C1: diff_new_notices keeps exactly the candidates whose trimmed id
is not in the trimmed seen collection and which, when the date filter
is on, are not dated strictly before cutoff = reference_date −
(recency_window_days − 1); in particular a seen candidate is dropped
even when its date is inside the window. -/
theorem diff_keeps_exactly_unseen_recent
    (notices : List Notice) (seen_ids : List String) (fb : Bool)
    (w ref todayD : Int) (_hw : 1 ≤ w) :
    ∀ n, n ∈ diff_new_notices notices seen_ids fb w (some ref) todayD ↔
      (n ∈ notices ∧ pyStrip n.id ∉ seen_ids.map pyStrip ∧
        (fb = true → ¬ n.date < ref - (w - 1))) := by
  intro n
  rw [diff_new_notices_eq_sort_keep, mem_pySortByIntId, mem_diffKeep, List.mem_dedup]
  constructor
  · intro ⟨ha, hb, hc⟩
    exact ⟨ha, hb, fun hfb hd => hc ⟨hfb, hd⟩⟩
  · intro ⟨ha, hb, hc⟩
    exact ⟨ha, hb, fun ⟨hfb, hd⟩ => hc hfb hd⟩

/-- Witness for C1 at concrete inputs: a candidate whose id is in seen
is excluded even though its date equals the reference date, and an
unseen one inside the window is kept. -/
theorem diff_keeps_exactly_unseen_recent_witness :
    ((1 : Int) ≤ 1) ∧
    ¬ (⟨"7", "t", "u", "c", "w", 10, none, false⟩ : Notice) ∈
        diff_new_notices [⟨"7", "t", "u", "c", "w", 10, none, false⟩,
          ⟨"8", "t", "u", "c", "w", 10, none, false⟩] ["7"] true 1 (some 10) 0 ∧
    (⟨"8", "t", "u", "c", "w", 10, none, false⟩ : Notice) ∈
        diff_new_notices [⟨"7", "t", "u", "c", "w", 10, none, false⟩,
          ⟨"8", "t", "u", "c", "w", 10, none, false⟩] ["7"] true 1 (some 10) 0 := by
  refine ⟨by decide, ?_, ?_⟩
  · rw [diff_keeps_exactly_unseen_recent _ _ _ _ _ _ (by decide)]
    decide
  · rw [diff_keeps_exactly_unseen_recent _ _ _ _ _ _ (by decide)]
    decide

/-- C9: the novelty computation is a pure function of its inputs: with
an explicit reference_date the ambient current date is irrelevant, so
two runs on the same inputs give the same output; every output element
is one of the input candidates (candidates are returned unmodified and
seen is only read); and the result may be empty. -/
theorem diff_new_notices_pure (notices : List Notice) (seen_ids : List String)
    (fb : Bool) (w ref t1 t2 : Int) :
    diff_new_notices notices seen_ids fb w (some ref) t1 =
      diff_new_notices notices seen_ids fb w (some ref) t2 ∧
    (∀ n, n ∈ diff_new_notices notices seen_ids fb w (some ref) t1 → n ∈ notices) ∧
    diff_new_notices [] seen_ids fb w (some ref) t1 = [] := by
  refine ⟨rfl, ?_, rfl⟩
  intro n hn
  rw [diff_new_notices_eq_sort_keep, mem_pySortByIntId, mem_diffKeep] at hn
  exact hn.1

/-- Witness for C9: the membership implication at a concrete run. -/
theorem diff_new_notices_pure_witness :
    (⟨"3", "t", "u", "c", "w", 0, none, false⟩ : Notice) ∈
      [(⟨"3", "t", "u", "c", "w", 0, none, false⟩ : Notice)] :=
  (diff_new_notices_pure [⟨"3", "t", "u", "c", "w", 0, none, false⟩] [] false 1 0 0 0).2.1
    ⟨"3", "t", "u", "c", "w", 0, none, false⟩ (by decide)

/-! ### C2: ordering of the survivors -/

/-- C2 counterexample: the claim says survivors with a not-all-digit id
are returned in input order, but int() also accepts signed strings:
with ids "3" then "-5" (not all-digit), every key parses, so the list
is sorted numerically and comes back reordered. -/
theorem diff_ordering_counterexample :
    pyIsDigitStr "-5" = false ∧
    diff_new_notices
        [⟨"3", "a", "u", "", "", 0, none, false⟩, ⟨"-5", "b", "u", "", "", 0, none, false⟩]
        [] false 1 (some 0) 0 =
      [⟨"-5", "b", "u", "", "", 0, none, false⟩, ⟨"3", "a", "u", "", "", 0, none, false⟩] ∧
    ([⟨"-5", "b", "u", "", "", 0, none, false⟩, ⟨"3", "a", "u", "", "", 0, none, false⟩] :
        List Notice) ≠
      [⟨"3", "a", "u", "", "", 0, none, false⟩, ⟨"-5", "b", "u", "", "", 0, none, false⟩] := by
  refine ⟨by decide, by decide, by decide⟩

/-- C2 (amended): when every survivor id is accepted by int(), the
result is a permutation of the survivors sorted ascending by the
numeric key; when some survivor id fails int() (rather than merely not
being all-digit), the survivors come back in input order unchanged;
and with an empty seen collection and the date filter off, the
survivors are all candidates. -/
theorem diff_new_notices_ordering
    (notices : List Notice) (seen_ids : List String) (fb : Bool) (w ref todayD : Int) :
    ((diffKeep ((seen_ids.map pyStrip).dedup) fb (ref - (w - 1)) notices).all
        (fun n => (pyIntParse n.id).isSome) = true →
      (diff_new_notices notices seen_ids fb w (some ref) todayD).Perm
          (diffKeep ((seen_ids.map pyStrip).dedup) fb (ref - (w - 1)) notices) ∧
      (diff_new_notices notices seen_ids fb w (some ref) todayD).Pairwise
          (fun a b => diffSortKey a ≤ diffSortKey b)) ∧
    ((diffKeep ((seen_ids.map pyStrip).dedup) fb (ref - (w - 1)) notices).all
        (fun n => (pyIntParse n.id).isSome) = false →
      diff_new_notices notices seen_ids fb w (some ref) todayD =
        diffKeep ((seen_ids.map pyStrip).dedup) fb (ref - (w - 1)) notices) ∧
    (seen_ids = [] → fb = false →
      diffKeep ((seen_ids.map pyStrip).dedup) fb (ref - (w - 1)) notices = notices) := by
  refine ⟨?_, ?_, ?_⟩
  · intro hAll
    rw [diff_new_notices_eq_sort_keep]
    unfold pySortByIntId
    rw [if_pos hAll]
    constructor
    · exact pySorted_perm _ _
    · have hp := pySorted_pairwise numAscLe (keyLe_trans diffSortKey) ?_
        (diffKeep ((seen_ids.map pyStrip).dedup) fb (ref - (w - 1)) notices)
      · refine hp.imp ?_
        intro a b hab
        simpa [numAscLe] using hab
      · intro a b
        exact keyLe_total diffSortKey a b
  · intro hAll
    rw [diff_new_notices_eq_sort_keep]
    unfold pySortByIntId
    rw [if_neg (by rw [hAll]; exact Bool.false_ne_true)]
  · intro hseen hfb
    subst hseen; subst hfb
    simpa using diffKeep_nil_false (ref - (w - 1)) notices

/-- Witness for C2 (amended) at concrete inputs. -/
theorem diff_new_notices_ordering_witness :
    (diff_new_notices [⟨"20", "a", "u", "", "", 0, none, false⟩,
        ⟨"10", "b", "u", "", "", 0, none, false⟩] [] false 1 (some 0) 0).Pairwise
      (fun a b => diffSortKey a ≤ diffSortKey b) ∧
    diff_new_notices [⟨"x", "a", "u", "", "", 0, none, false⟩,
        ⟨"10", "b", "u", "", "", 0, none, false⟩] [] false 1 (some 0) 0 =
      diffKeep ((([] : List String)).map pyStrip).dedup false (0 - (1 - 1))
        [⟨"x", "a", "u", "", "", 0, none, false⟩, ⟨"10", "b", "u", "", "", 0, none, false⟩] := by
  constructor
  · exact ((diff_new_notices_ordering
      [⟨"20", "a", "u", "", "", 0, none, false⟩, ⟨"10", "b", "u", "", "", 0, none, false⟩]
      [] false 1 0 0).1 (by decide)).2
  · exact (diff_new_notices_ordering
      [⟨"x", "a", "u", "", "", 0, none, false⟩, ⟨"10", "b", "u", "", "", 0, none, false⟩]
      [] false 1 0 0).2.1 (by decide)

/-! ### C7: views parsing -/

theorem pyIntParse_eq_cons (s : String) (c : Char) (rest : List Char)
    (hd : s.toList.dropWhile isPySpace = c :: rest) :
    pyIntParse s =
      if c = '+' then (pyUIntAfterSign rest).map (fun v => (v : Int))
      else if c = '-' then (pyUIntAfterSign rest).map (fun v => -(v : Int))
      else (pyUIntAfterSign (c :: rest)).map (fun v => (v : Int)) := by
  unfold pyIntParse
  rw [hd]

theorem pyIntParse_nonneg_no_minus (s : String) (h : ('-') ∉ s.toList) :
    ∀ v, pyIntParse s = some v → 0 ≤ v := by
  intro v hv
  cases hd : s.toList.dropWhile isPySpace with
  | nil =>
    unfold pyIntParse at hv
    rw [hd] at hv
    simp at hv
  | cons c rest =>
    rw [pyIntParse_eq_cons s c rest hd] at hv
    by_cases hp : c = '+'
    · rw [if_pos hp] at hv
      cases hu : pyUIntAfterSign rest with
      | none => rw [hu] at hv; simp at hv
      | some n =>
        rw [hu] at hv
        simp at hv
        omega
    · have hm : c ≠ '-' := by
        intro he
        apply h
        subst he
        have hmem : '-' ∈ s.toList.dropWhile isPySpace := by
          rw [hd]; exact List.mem_cons_self _ _
        exact (List.dropWhile_sublist _).mem hmem
      rw [if_neg hp, if_neg hm] at hv
      cases hu : pyUIntAfterSign (c :: rest) with
      | none => rw [hu] at hv; simp at hv
      | some n =>
        rw [hu] at hv
        simp at hv
        omega

/-- C7 counterexample: a views cell text with a minus sign parses to a
negative integer, contradicting that views is never negative. -/
theorem parse_views_negative_counterexample :
    _parse_views "-5" = some (-5) ∧ ((-5 : Int) < 0) := by
  refine ⟨by decide, by decide⟩

/-- C7 (amended): a produced Notice's views field is either None or an
integer obtained by stripping commas and whitespace from the views
cell text and parsing with int() (absent cell or unparseable text give
None); int() accepts a leading sign, so negative cell text gives a
negative value, but any text without a minus sign never parses to a
negative value. -/
theorem parse_views_spec :
    (∀ text v, ('-') ∉ text.toList → _parse_views text = some v → 0 ≤ v) ∧
    (∀ env base rows n, n ∈ parse_notices env base rows →
      ∃ row, row ∈ rows ∧ n.views = rowViews row) := by
  constructor
  · intro text v hminus hv
    unfold _parse_views at hv
    refine pyIntParse_nonneg_no_minus _ ?_ v hv
    intro hmem
    simp only [String.toList] at hmem
    exact hminus (List.mem_of_mem_filter hmem)
  · intro env base rows
    induction rows with
    | nil => intro n hn; simp [parse_notices] at hn
    | cons row rest ih =>
      intro n hn
      cases hl : row.link with
      | none =>
        rw [parse_notices, hl] at hn
        rcases ih n hn with ⟨r, hr, hv⟩
        exact ⟨r, List.mem_cons_of_mem row hr, hv⟩
      | some link =>
        rw [parse_notices, hl] at hn
        dsimp only at hn
        cases he : _extract_notice_id (pyStrip link.href) with
        | none =>
          rw [he] at hn
          rcases ih n hn with ⟨r, hr, hv⟩
          exact ⟨r, List.mem_cons_of_mem row hr, hv⟩
        | some notice_id =>
          rw [he] at hn
          rcases List.mem_cons.mp hn with heq | hrest
          · refine ⟨row, List.mem_cons_self _ _, ?_⟩
            rw [heq]
          · rcases ih n hrest with ⟨r, hr, hv⟩
            exact ⟨r, List.mem_cons_of_mem row hr, hv⟩

/-- Witness for C7 (amended) at concrete inputs: "1,234" has no minus
sign and parses non-negative, and a parsed row's views field is the
parse of its views cell. -/
theorem parse_views_spec_witness :
    ((0 : Int) ≤ 1234) ∧
    (∃ row, row ∈ [(⟨some ⟨"/9/artclView.do", "t"⟩, [⟨[], "1,234"⟩], [], "", []⟩ : Row)] ∧
      (Notice.mk "9" "t" "u" "" "1,234" 7 (some 1234) false).views = rowViews row) := by
  constructor
  · exact parse_views_spec.1 "1,234" 1234 (by decide) (by decide)
  · exact parse_views_spec.2 ⟨fun _ => none, fun _ => none, fun _ _ => "u", 7⟩ "b"
      [⟨some ⟨"/9/artclView.do", "t"⟩, [⟨[], "1,234"⟩], [], "", []⟩]
      (Notice.mk "9" "t" "u" "" "1,234" 7 (some 1234) false) (by decide)

/-! ### C8: the delivery rate-limit loop -/

/-- C8 counterexample: on a webhook that always answers 429 the retry
loop never returns, so there is no bound on the number of attempts. -/
theorem post_rate_limit_unbounded_counterexample : loopsForever always429 := by
  have hgen : ∀ m i, _post_with_rate_limit always429 m i = none := by
    intro m
    induction m with
    | zero => intro i; rfl
    | succ j ihj =>
      intro i
      rw [_post_with_rate_limit, if_pos (show always429 i = 429 from rfl)]
      exact ihj (i + 1)
  intro attempts
  exact hgen attempts 0

theorem post_terminates_aux (responses : Nat → Nat) :
    ∀ k i, (∀ j, j < k → responses (i + j) = 429) → responses (i + k) ≠ 429 →
      ∀ extra, _post_with_rate_limit responses (k + 1 + extra) i =
        some (if raiseForStatusErrs (responses (i + k)) then
                PostResult.raised (responses (i + k))
              else PostResult.delivered) := by
  intro k
  induction k with
  | zero =>
    intro i hbefore hk extra
    rw [show (0 + 1 + extra) = extra + 1 by omega]
    rw [_post_with_rate_limit]
    rw [if_neg (by simpa using hk)]
    by_cases hr : raiseForStatusErrs (responses i) = true
    · rw [if_pos hr]
      simp [hr]
    · rw [if_neg hr]
      simp [hr]
  | succ m ihm =>
    intro i hbefore hk extra
    rw [show (m + 1 + 1 + extra) = (m + 1 + extra) + 1 by omega]
    rw [_post_with_rate_limit]
    rw [if_pos (by simpa using hbefore 0 (by omega))]
    have h1 : ∀ j, j < m → responses (i + 1 + j) = 429 := by
      intro j hj
      have := hbefore (j + 1) (by omega)
      rw [show (i + 1 + j) = i + (j + 1) by omega]
      exact this
    have h2 : responses (i + 1 + m) ≠ 429 := by
      rw [show (i + 1 + m) = i + (m + 1) by omega]
      exact hk
    have := ihm (i + 1) h1 h2 extra
    rw [this]
    rw [show (i + 1 + m) = i + (m + 1) by omega]

/-- C8 (amended): the retry loop is not bounded; it retries while the
webhook answers 429 and returns at the first other answer: when the
first k attempts get 429 and attempt k gets a different status, the
loop ends at attempt k with that attempt's outcome for the same item
(delivered, or an error raised for the item): the item is never
skipped or dropped, only retried. -/
theorem post_terminates_at_first_non_429 (responses : Nat → Nat) (k : Nat)
    (hbefore : ∀ j, j < k → responses j = 429) (hk : responses k ≠ 429) :
    ∀ extra, _post_with_rate_limit responses (k + 1 + extra) 0 =
      some (if raiseForStatusErrs (responses k) then PostResult.raised (responses k)
            else PostResult.delivered) := by
  have := post_terminates_aux responses k 0 (by simpa using hbefore) (by simpa using hk)
  simpa using this

/-- Witness for C8 (amended): a webhook answering 429 twice and then
204 delivers on the third attempt. -/
theorem post_terminates_witness :
    _post_with_rate_limit (fun i => if i < 2 then 429 else 204) (2 + 1 + 0) 0 =
      some PostResult.delivered := by
  have h := post_terminates_at_first_non_429 (fun i => if i < 2 then 429 else 204) 2
    (by intro j hj; interval_cases j <;> rfl) (by decide) 0
  simpa using h

/-! ### C10: every extracted id passes str.isdigit, and isdigit
diverges from int() acceptance on the superscript and subscript digit
characters -/

theorem isPyDigit_of_ascii (c : Char) (h : isAsciiDigit c = true) :
    isPyDigit c = true := by
  simp [isPyDigit, h]

theorem pyIsDigitStr_of_ascii (s : String) (h : isAsciiDigitStr s = true) :
    pyIsDigitStr s = true := by
  simp only [isAsciiDigitStr, Bool.and_eq_true] at h
  rcases h with ⟨hne, hall⟩
  simp only [pyIsDigitStr, Bool.and_eq_true]
  refine ⟨hne, ?_⟩
  rw [List.all_eq_true] at hall ⊢
  intro x hx
  exact isPyDigit_of_ascii x (hall x hx)

theorem qsScan_all_digit (l : List (String × List String)) (s : String)
    (h : qsScan l = some s) : pyIsDigitStr s = true := by
  induction l with
  | nil => simp [qsScan] at h
  | cons kv rest ih =>
    obtain ⟨k, vs⟩ := kv
    rw [qsScan] at h
    by_cases hk : idTokens.any (fun t => hasSubstr t (pyLower k)) = true
    · rw [if_pos hk] at h
      cases hf : (vs.map pyStrip).find? pyIsDigitStr with
      | none => rw [hf] at h; exact ih h
      | some c =>
        rw [hf] at h
        rcases Option.some.inj h with rfl
        exact List.find?_some hf
    · rw [if_neg hk] at h
      exact ih h

theorem patAt_all_digit (cs : List Char) (s : String) (h : patAt cs = some s) :
    isAsciiDigitStr s = true := by
  cases cs with
  | nil => simp [patAt] at h
  | cons c rest =>
    rw [patAt] at h
    by_cases hc : c = '/'
    · rw [if_pos hc] at h
      by_cases hcond : (!(rest.takeWhile isAsciiDigit).isEmpty &&
          leadsWith artclTail (rest.drop (rest.takeWhile isAsciiDigit).length)) = true
      · rw [if_pos hcond] at h
        rcases Option.some.inj h with rfl
        simp only [Bool.and_eq_true, Bool.not_eq_true'] at hcond
        simp only [isAsciiDigitStr, Bool.and_eq_true, Bool.not_eq_true']
        refine ⟨by simpa [String.toList] using hcond.1, ?_⟩
        simp only [String.toList]
        rw [List.all_eq_true]
        intro x hx
        exact List.mem_takeWhile_imp hx
      · rw [if_neg hcond] at h
        simp at h
    · rw [if_neg hc] at h
      simp at h

theorem patSearch_all_digit (cs : List Char) (s : String) (h : patSearch cs = some s) :
    isAsciiDigitStr s = true := by
  induction cs with
  | nil => simp [patSearch] at h
  | cons c rest ih =>
    rw [patSearch] at h
    cases hp : patAt (c :: rest) with
    | some m =>
      rw [hp] at h
      rcases Option.some.inj h with rfl
      exact patAt_all_digit _ _ hp
    | none =>
      rw [hp] at h
      exact ih h

theorem foldl_keep_mem (xs : List (List Char)) :
    ∀ acc, xs.foldl (fun acc s => if s.length > acc.length then s else acc) acc ∈ acc :: xs := by
  induction xs with
  | nil => intro acc; simp
  | cons y ys ih =>
    intro acc
    rw [List.foldl_cons]
    by_cases hc : y.length > acc.length
    · rw [if_pos hc]
      rcases List.mem_cons.mp (ih y) with he | hm
      · rw [he]; exact List.mem_cons_of_mem _ (List.mem_cons_self _ _)
      · exact List.mem_cons_of_mem _ (List.mem_cons_of_mem _ hm)
    · rw [if_neg hc]
      rcases List.mem_cons.mp (ih acc) with he | hm
      · rw [he]; exact List.mem_cons_self _ _
      · exact List.mem_cons_of_mem _ (List.mem_cons_of_mem _ hm)

theorem longestFirst_mem (l : List (List Char)) (s : List Char)
    (h : longestFirst l = some s) : s ∈ l := by
  cases l with
  | nil => simp [longestFirst] at h
  | cons x xs =>
    rw [longestFirst] at h
    rcases Option.some.inj h with rfl
    exact foldl_keep_mem xs x

theorem digitSegmentId_all_digit (href : String) (s : String)
    (h : digitSegmentId href = some s) : pyIsDigitStr s = true := by
  unfold digitSegmentId at h
  dsimp only at h
  cases hl : longestFirst ((splitOnCharL '/' (urlparsePathQuery href).path.toList).filter
      (fun s => !s.isEmpty && s.all isPyDigit)) with
  | none => rw [hl] at h; simp at h
  | some seg =>
    rw [hl] at h
    have hs : String.mk seg = s := by simpa using h
    subst hs
    have hmem := longestFirst_mem _ _ hl
    have hprop := List.of_mem_filter hmem
    simp only [Bool.and_eq_true, Bool.not_eq_true'] at hprop
    simp only [pyIsDigitStr, Bool.and_eq_true, Bool.not_eq_true']
    exact ⟨by simpa [String.toList] using hprop.1, by simpa [String.toList] using hprop.2⟩

theorem extract_notice_id_all_digit (href : String) (s : String)
    (h : _extract_notice_id href = some s) : pyIsDigitStr s = true := by
  unfold _extract_notice_id at h
  cases hq : queryStringId href with
  | some c =>
    rw [hq] at h
    rcases Option.some.inj h with rfl
    exact qsScan_all_digit _ _ hq
  | none =>
    rw [hq] at h
    cases hp : pathPatternId href with
    | some m =>
      rw [hp] at h
      rcases Option.some.inj h with rfl
      exact pyIsDigitStr_of_ascii _ (patSearch_all_digit _ _ hp)
    | none =>
      rw [hp] at h
      exact digitSegmentId_all_digit _ _ h

theorem parse_notices_id_digit (env : ParseEnv) (base : String) (rows : List Row) :
    ∀ n ∈ parse_notices env base rows, pyIsDigitStr n.id = true := by
  induction rows with
  | nil => intro n hn; simp [parse_notices] at hn
  | cons row rest ih =>
    intro n hn
    cases hl : row.link with
    | none =>
      rw [parse_notices, hl] at hn
      exact ih n hn
    | some link =>
      rw [parse_notices, hl] at hn
      dsimp only at hn
      cases he : _extract_notice_id (pyStrip link.href) with
      | none =>
        rw [he] at hn
        exact ih n hn
      | some notice_id =>
        rw [he] at hn
        rcases List.mem_cons.mp hn with heq | hrest
        · rw [heq]
          exact extract_notice_id_all_digit _ _ he
        · exact ih n hrest

/-- Refutation of C10 at a concrete input: str.isdigit also accepts
the superscript digit ² (U+00B2), which int() rejects, so strategy (a)
returns the id "²" for the href "view.do?idx=²"; on a candidate list
containing that id the numeric sort of diff_new_notices hits its
ValueError fallback and the survivors keep their input order ("20"
before "3") instead of being sorted numerically. -/
theorem crawler_superscript_id_counterexample :
    parse_notices ⟨fun _ => none, fun _ => none, fun _ _ => "u", 7⟩ "b"
        [⟨some ⟨"view.do?idx=²", "t"⟩, [], [], "", []⟩] =
      [⟨"²", "t", "u", "", "", 7, none, false⟩] ∧
    pyIsDigitStr "²" = true ∧
    pyIntParse "²" = none ∧
    diff_new_notices [⟨"20", "a", "u", "", "", 0, none, false⟩,
        ⟨"3", "b", "u", "", "", 0, none, false⟩,
        ⟨"²", "t", "u", "", "", 7, none, false⟩] [] false 1 (some 0) 0 =
      [⟨"20", "a", "u", "", "", 0, none, false⟩,
        ⟨"3", "b", "u", "", "", 0, none, false⟩,
        ⟨"²", "t", "u", "", "", 7, none, false⟩] := by
  refine ⟨by decide, by decide, by decide, by decide⟩

/-- C10 (corrected): every Notice produced by parse_notices has an id
that is non-empty and passes str.isdigit; since str.isdigit also
accepts the superscript and subscript digit characters, which int()
rejects, the no-fallback consequence holds under the stronger premise
that every candidate id consists solely of ASCII decimal digits: then
every survivor id parses with int() and diff_new_notices takes its
numeric sorted branch. -/
theorem crawler_ids_digit_invariant :
    (∀ env base rows n, n ∈ parse_notices env base rows → pyIsDigitStr n.id = true) ∧
    (∀ notices seen_ids fb w ref t,
      (∀ n, n ∈ notices → isAsciiDigitStr n.id = true) →
      (diffKeep ((seen_ids.map pyStrip).dedup) fb (ref - (w - 1)) notices).all
          (fun n => (pyIntParse n.id).isSome) = true ∧
      diff_new_notices notices seen_ids fb w (some ref) t =
        pySorted numAscLe
          (diffKeep ((seen_ids.map pyStrip).dedup) fb (ref - (w - 1)) notices)) := by
  constructor
  · intro env base rows n hn
    exact parse_notices_id_digit env base rows n hn
  · intro notices seen_ids fb w ref t hdig
    have hall : (diffKeep ((seen_ids.map pyStrip).dedup) fb (ref - (w - 1)) notices).all
        (fun n => (pyIntParse n.id).isSome) = true := by
      rw [List.all_eq_true]
      intro n hn
      have hmem := (mem_diffKeep _ _ _ _ n).mp hn
      rcases pyIntParse_of_digits n.id (hdig n hmem.1) with ⟨v, hv, _⟩
      simp [hv]
    refine ⟨hall, ?_⟩
    rw [diff_new_notices_eq_sort_keep]
    unfold pySortByIntId
    rw [if_pos hall]

/-- Witness for C10 at concrete inputs: a crawled row produces the id
107, which passes isdigit, and a list of candidates with ASCII-digit
ids is sorted by the numeric branch. -/
theorem crawler_ids_digit_invariant_witness :
    pyIsDigitStr (Notice.mk "107" "t" "u" "" "" 7 none false).id = true ∧
    diff_new_notices [⟨"20", "a", "u", "", "", 0, none, false⟩,
        ⟨"3", "b", "u", "", "", 0, none, false⟩] [] false 1 (some 0) 0 =
      pySorted numAscLe
        (diffKeep ((([] : List String)).map pyStrip).dedup false (0 - (1 - 1))
          [⟨"20", "a", "u", "", "", 0, none, false⟩, ⟨"3", "b", "u", "", "", 0, none, false⟩]) := by
  constructor
  · exact crawler_ids_digit_invariant.1
      ⟨fun _ => none, fun _ => none, fun _ _ => "u", 7⟩ "b"
      [⟨some ⟨"/bbs/kr/107/artclView.do", "t"⟩, [], [], "", []⟩]
      (Notice.mk "107" "t" "u" "" "" 7 none false) (by decide)
  · exact (crawler_ids_digit_invariant.2
      [⟨"20", "a", "u", "", "", 0, none, false⟩, ⟨"3", "b", "u", "", "", 0, none, false⟩]
      [] false 1 0 0 (by decide)).2

/-! ### C4: identifier extraction precedence and per-row skipping -/

/-- C4: the extractor tries the strategies in order: a digit-only
query-string value under an id-like key wins over everything; when no
query value matches, the /<digits>/artclView.do pattern is used; when
that fails too, the longest all-digit path segment; an href with both
a query value and a path pattern yields the query value.  A row whose
href yields no id, or which has no link, produces no Notice and the
batch continues with the remaining rows. -/
theorem extract_notice_id_precedence :
    (∀ href v, queryStringId href = some v → _extract_notice_id href = some v) ∧
    (∀ href v, queryStringId href = none → pathPatternId href = some v →
      _extract_notice_id href = some v) ∧
    (∀ href, queryStringId href = none → pathPatternId href = none →
      _extract_notice_id href = digitSegmentId href) ∧
    (∀ env base row rest link, row.link = some link →
      _extract_notice_id (pyStrip link.href) = none →
      parse_notices env base (row :: rest) = parse_notices env base rest) ∧
    (∀ env base row rest, row.link = none →
      parse_notices env base (row :: rest) = parse_notices env base rest) := by
  refine ⟨?_, ?_, ?_, ?_, ?_⟩
  · intro href v hq
    unfold _extract_notice_id
    rw [hq]
  · intro href v hq hp
    unfold _extract_notice_id
    rw [hq, hp]
  · intro href hq hp
    unfold _extract_notice_id
    rw [hq, hp]
  · intro env base row rest link hl he
    rw [parse_notices, hl]
    dsimp only
    rw [he]
  · intro env base row rest hl
    rw [parse_notices, hl]

/-- Witness for C4 at concrete inputs: an href carrying both a
query-string id parameter and a path pattern yields the query value
999 rather than the path value 9; with no query value the path pattern
wins over the longest segment; and a row with an id-less href is
skipped. -/
theorem extract_notice_id_precedence_witness :
    _extract_notice_id "/site/9/artclView.do?artclId=999" = some "999" ∧
    _extract_notice_id "/site/9/artclView.do?artclId=x" = some "9" ∧
    _extract_notice_id "/plain/777/page.do" = some "777" ∧
    parse_notices ⟨fun _ => none, fun _ => none, fun _ _ => "u", 7⟩ "b"
      [⟨some ⟨"/nothing/here", "t"⟩, [], [], "", []⟩] =
      parse_notices ⟨fun _ => none, fun _ => none, fun _ _ => "u", 7⟩ "b" [] := by
  refine ⟨?_, ?_, ?_, ?_⟩
  · exact extract_notice_id_precedence.1 "/site/9/artclView.do?artclId=999" "999" (by decide)
  · exact extract_notice_id_precedence.2.1 "/site/9/artclView.do?artclId=x" "9"
      (by decide) (by decide)
  · have h := extract_notice_id_precedence.2.2.1 "/plain/777/page.do" (by decide) (by decide)
    rw [h]
    decide
  · exact extract_notice_id_precedence.2.2.2.1
      ⟨fun _ => none, fun _ => none, fun _ _ => "u", 7⟩ "b"
      ⟨some ⟨"/nothing/here", "t"⟩, [], [], "", []⟩ [] ⟨"/nothing/here", "t"⟩
      (by decide) (by decide)

/-! ### Idempotence of pyStrip -/

theorem dropWhile_head_not (p : Char → Bool) (l : List Char) (c : Char) (t : List Char)
    (h : l.dropWhile p = c :: t) : p c = false := by
  induction l with
  | nil => simp at h
  | cons d rest ih =>
    rw [List.dropWhile_cons] at h
    by_cases hd : p d = true
    · rw [if_pos hd] at h
      exact ih h
    · rw [if_neg hd] at h
      rcases List.cons.inj h with ⟨he, _⟩
      subst he
      exact Bool.eq_false_iff.mpr hd

theorem dropWhile_of_head_not (p : Char → Bool) (l : List Char)
    (h : ∀ c t, l = c :: t → p c = false) : l.dropWhile p = l := by
  cases l with
  | nil => rfl
  | cons c t =>
    rw [List.dropWhile_cons, if_neg]
    rw [h c t rfl]
    simp

theorem pyStripL_idem (cs : List Char) : pyStripL (pyStripL cs) = pyStripL cs := by
  unfold pyStripL
  set A := cs.dropWhile isPySpace with hA
  set B := A.reverse.dropWhile isPySpace with hB
  have hBhead : ∀ c t, B = c :: t → isPySpace c = false := by
    intro c t h
    exact dropWhile_head_not isPySpace A.reverse c t (hB ▸ h)
  have hBrevHead : ∀ c t, B.reverse = c :: t → isPySpace c = false := by
    intro c t h
    rcases List.dropWhile_suffix (l := A.reverse) (p := isPySpace) with ⟨pre, hpre⟩
    have hArev : A = B.reverse ++ pre.reverse := by
      have := congrArg List.reverse hpre
      simpa [List.reverse_append] using this.symm
    have hAhead : A = c :: (t ++ pre.reverse) := by
      rw [hArev, h]
      simp
    exact dropWhile_head_not isPySpace cs c _ (hA ▸ hAhead)
  rw [dropWhile_of_head_not isPySpace B.reverse hBrevHead]
  rw [List.reverse_reverse]
  rw [dropWhile_of_head_not isPySpace B hBhead]

theorem pyStrip_idem (s : String) : pyStrip (pyStrip s) = pyStrip s := by
  unfold pyStrip
  rw [show (String.mk (pyStripL s.toList)).toList = pyStripL s.toList from rfl]
  rw [pyStripL_idem]

/-! ### Round trip: jsonParse of dumpsSeen -/

theorem hexVal_hexDigitLower (n : Nat) (h : n < 16) :
    hexVal (hexDigitLower n) = some n := by
  interval_cases n <;> rfl

theorem parseStrBody_plain (fuel : Nat) (c : Char) (rest : List Char)
    (h1 : c ≠ '"') (h2 : c ≠ '\\') (h3 : ¬ c.toNat < 32) :
    parseStrBody (fuel + 1) (c :: rest) =
      (parseStrBody fuel rest).map (fun p => (c :: p.1, p.2)) := by
  rw [parseStrBody.eq_def]
  dsimp only
  rw [if_neg h1, if_neg h2, if_neg h3]

theorem parseStrBody_u_escape (fuel : Nat) (a b c1 d : Char) (rest : List Char) (n : Nat)
    (hx : hex4 a b c1 d = some n) (hlow : n < 0xD800) :
    parseStrBody (fuel + 1) ('\\' :: 'u' :: a :: b :: c1 :: d :: rest) =
      (parseStrBody fuel rest).map (fun p => (jsonUniChar n :: p.1, p.2)) := by
  rw [parseStrBody.eq_def]
  dsimp only
  rw [if_neg (show ('\\' : Char) ≠ '"' by decide)]
  rw [if_pos (show ('\\' : Char) = '\\' from rfl)]
  split
  · rename_i a2 b2 c2 d2 rest2 heq
    rcases List.cons.inj heq with ⟨_, heq2⟩
    rcases List.cons.inj heq2 with ⟨ha, heq3⟩
    rcases List.cons.inj heq3 with ⟨hb, heq4⟩
    rcases List.cons.inj heq4 with ⟨hc1, heq5⟩
    rcases List.cons.inj heq5 with ⟨hd, hrest⟩
    subst ha; subst hb; subst hc1; subst hd; subst hrest
    rw [hx]
    dsimp only
    rw [if_neg (show ¬(0xD800 ≤ n ∧ n ≤ 0xDBFF) by omega)]
  · rename_i e rest2 hne heq
    exact (hne a b c1 d rest (List.cons.inj heq).1.symm (List.cons.inj heq).2.symm).elim
  · rename_i hne heq
    exact absurd heq (by simp)

theorem escJsonL_cons (c : Char) (cs : List Char) :
    escJsonL (c :: cs) = escJsonChar c ++ escJsonL cs := rfl

theorem escJsonChar_length_pos (c : Char) : 1 ≤ (escJsonChar c).length := by
  unfold escJsonChar
  by_cases h1 : c = '"'
  · rw [if_pos h1]; decide
  rw [if_neg h1]
  by_cases h2 : c = '\\'
  · rw [if_pos h2]; decide
  rw [if_neg h2]
  by_cases h3 : c = '\x08'
  · rw [if_pos h3]; decide
  rw [if_neg h3]
  by_cases h4 : c = '\x0c'
  · rw [if_pos h4]; decide
  rw [if_neg h4]
  by_cases h5 : c = '\n'
  · rw [if_pos h5]; decide
  rw [if_neg h5]
  by_cases h6 : c = '\r'
  · rw [if_pos h6]; decide
  rw [if_neg h6]
  by_cases h7 : c = '\t'
  · rw [if_pos h7]; decide
  rw [if_neg h7]
  by_cases h8 : c.toNat < 32
  · rw [if_pos h8]; simp
  · rw [if_neg h8]; simp

theorem parseStrBody_escJson (content : List Char) :
    ∀ (tail : List Char) (fuel : Nat), (escJsonL content).length + 1 ≤ fuel →
      parseStrBody fuel (escJsonL content ++ '"' :: tail) = some (content, tail) := by
  induction content with
  | nil =>
    intro tail fuel hf
    obtain ⟨f, rfl⟩ : ∃ f, fuel = f + 1 := ⟨fuel - 1, by omega⟩
    rfl
  | cons c cs ih =>
    intro tail fuel hf
    have hlen : (escJsonL (c :: cs)).length =
        (escJsonChar c).length + (escJsonL cs).length := by
      rw [escJsonL_cons, List.length_append]
    have hcl := escJsonChar_length_pos c
    obtain ⟨f, rfl⟩ : ∃ f, fuel = f + 1 := ⟨fuel - 1, by omega⟩
    have hfs : (escJsonL cs).length + 1 ≤ f := by omega
    have hgoal : escJsonL (c :: cs) ++ '"' :: tail =
        escJsonChar c ++ (escJsonL cs ++ '"' :: tail) := by
      rw [escJsonL_cons, List.append_assoc]
    rw [hgoal]
    by_cases h1 : c = '"'
    · subst h1
      show parseStrBody (f + 1) ('\\' :: '"' :: (escJsonL cs ++ '"' :: tail)) =
        some ('"' :: cs, tail)
      rw [show parseStrBody (f + 1) ('\\' :: '"' :: (escJsonL cs ++ '"' :: tail)) =
        (parseStrBody f (escJsonL cs ++ '"' :: tail)).map
          (fun p => ('"' :: p.1, p.2)) from rfl]
      rw [ih tail f hfs]
      rfl
    by_cases h2 : c = '\\'
    · subst h2
      show parseStrBody (f + 1) ('\\' :: '\\' :: (escJsonL cs ++ '"' :: tail)) =
        some ('\\' :: cs, tail)
      rw [show parseStrBody (f + 1) ('\\' :: '\\' :: (escJsonL cs ++ '"' :: tail)) =
        (parseStrBody f (escJsonL cs ++ '"' :: tail)).map
          (fun p => ('\\' :: p.1, p.2)) from rfl]
      rw [ih tail f hfs]
      rfl
    by_cases h3 : c = '\x08'
    · subst h3
      show parseStrBody (f + 1) ('\\' :: 'b' :: (escJsonL cs ++ '"' :: tail)) =
        some ('\x08' :: cs, tail)
      rw [show parseStrBody (f + 1) ('\\' :: 'b' :: (escJsonL cs ++ '"' :: tail)) =
        (parseStrBody f (escJsonL cs ++ '"' :: tail)).map
          (fun p => ('\x08' :: p.1, p.2)) from rfl]
      rw [ih tail f hfs]
      rfl
    by_cases h4 : c = '\x0c'
    · subst h4
      show parseStrBody (f + 1) ('\\' :: 'f' :: (escJsonL cs ++ '"' :: tail)) =
        some ('\x0c' :: cs, tail)
      rw [show parseStrBody (f + 1) ('\\' :: 'f' :: (escJsonL cs ++ '"' :: tail)) =
        (parseStrBody f (escJsonL cs ++ '"' :: tail)).map
          (fun p => ('\x0c' :: p.1, p.2)) from rfl]
      rw [ih tail f hfs]
      rfl
    by_cases h5 : c = '\n'
    · subst h5
      show parseStrBody (f + 1) ('\\' :: 'n' :: (escJsonL cs ++ '"' :: tail)) =
        some ('\n' :: cs, tail)
      rw [show parseStrBody (f + 1) ('\\' :: 'n' :: (escJsonL cs ++ '"' :: tail)) =
        (parseStrBody f (escJsonL cs ++ '"' :: tail)).map
          (fun p => ('\n' :: p.1, p.2)) from rfl]
      rw [ih tail f hfs]
      rfl
    by_cases h6 : c = '\r'
    · subst h6
      show parseStrBody (f + 1) ('\\' :: 'r' :: (escJsonL cs ++ '"' :: tail)) =
        some ('\r' :: cs, tail)
      rw [show parseStrBody (f + 1) ('\\' :: 'r' :: (escJsonL cs ++ '"' :: tail)) =
        (parseStrBody f (escJsonL cs ++ '"' :: tail)).map
          (fun p => ('\r' :: p.1, p.2)) from rfl]
      rw [ih tail f hfs]
      rfl
    by_cases h7 : c = '\t'
    · subst h7
      show parseStrBody (f + 1) ('\\' :: 't' :: (escJsonL cs ++ '"' :: tail)) =
        some ('\t' :: cs, tail)
      rw [show parseStrBody (f + 1) ('\\' :: 't' :: (escJsonL cs ++ '"' :: tail)) =
        (parseStrBody f (escJsonL cs ++ '"' :: tail)).map
          (fun p => ('\t' :: p.1, p.2)) from rfl]
      rw [ih tail f hfs]
      rfl
    by_cases h8 : c.toNat < 32
    · rw [show escJsonChar c = ['\\', 'u', '0', '0', hexDigitLower (c.toNat / 16),
          hexDigitLower (c.toNat % 16)] from by
        unfold escJsonChar
        rw [if_neg h1, if_neg h2, if_neg h3, if_neg h4, if_neg h5, if_neg h6, if_neg h7,
          if_pos h8]]
      show parseStrBody (f + 1) ('\\' :: 'u' :: '0' :: '0' :: hexDigitLower (c.toNat / 16) ::
          hexDigitLower (c.toNat % 16) :: (escJsonL cs ++ '"' :: tail)) = some (c :: cs, tail)
      have hx : hex4 '0' '0' (hexDigitLower (c.toNat / 16))
          (hexDigitLower (c.toNat % 16)) = some c.toNat := by
        unfold hex4
        rw [show hexVal '0' = some 0 from rfl]
        rw [hexVal_hexDigitLower (c.toNat / 16) (by omega)]
        rw [hexVal_hexDigitLower (c.toNat % 16) (by omega)]
        dsimp only
        congr 1
        omega
      rw [parseStrBody_u_escape f '0' '0' (hexDigitLower (c.toNat / 16))
        (hexDigitLower (c.toNat % 16)) (escJsonL cs ++ '"' :: tail) c.toNat hx (by omega)]
      rw [ih tail f hfs]
      have hj : jsonUniChar c.toNat = c := by
        unfold jsonUniChar
        rw [if_neg (by omega)]
        exact Char.ofNat_toNat c
      rw [hj]
      rfl
    · rw [show escJsonChar c = [c] from by
        unfold escJsonChar
        rw [if_neg h1, if_neg h2, if_neg h3, if_neg h4, if_neg h5, if_neg h6, if_neg h7,
          if_neg h8]]
      show parseStrBody (f + 1) (c :: (escJsonL cs ++ '"' :: tail)) = some (c :: cs, tail)
      rw [parseStrBody_plain f c (escJsonL cs ++ '"' :: tail) h1 h2 h8]
      rw [ih tail f hfs]
      rfl

theorem parseJsonItems_succ (fuel : Nat) (cs : List Char) :
    parseJsonItems (fuel + 1) cs =
      (match parseJsonValue fuel cs with
       | none => none
       | some (v, rest) =>
         match skipWs rest with
         | ',' :: rest2 => (parseJsonItems fuel rest2).map (fun p => (v :: p.1, p.2))
         | ']' :: rest2 => some ([v], rest2)
         | _ => none) := by
  rw [parseJsonItems]

theorem parseJsonValue_ws (fuel : Nat) (cs1 cs2 : List Char) (h : skipWs cs1 = skipWs cs2) :
    parseJsonValue fuel cs1 = parseJsonValue fuel cs2 := by
  cases fuel with
  | zero => rfl
  | succ f =>
    rw [parseJsonValue.eq_def, parseJsonValue.eq_def]
    dsimp only
    rw [h]

theorem parseJsonItems_ws (fuel : Nat) (cs1 cs2 : List Char) (h : skipWs cs1 = skipWs cs2) :
    parseJsonItems fuel cs1 = parseJsonItems fuel cs2 := by
  cases fuel with
  | zero => rfl
  | succ f =>
    rw [parseJsonItems_succ, parseJsonItems_succ, parseJsonValue_ws f cs1 cs2 h]

theorem dumpsItem_shape (t : String) (tail : List Char) :
    dumpsItem t ++ tail = '"' :: (escJsonL t.toList ++ '"' :: tail) := by
  simp [dumpsItem, List.append_assoc]

theorem parseJsonItems_dumps (items : List String) :
    ∀ (s : String) (f : Nat), items.length + 2 ≤ f →
      parseJsonItems f ('"' :: (escJsonL s.toList ++ '"' :: dumpsTail items)) =
        some ((s :: items).map Json.str, ['\n', '\x7d']) := by
  induction items with
  | nil =>
    intro s f hf
    obtain ⟨g, rfl⟩ : ∃ g, f = g + 2 := ⟨f - 2, by omega⟩
    have hval : parseJsonValue (g + 1)
        ('"' :: (escJsonL s.toList ++ '"' :: dumpsTail [])) =
        some (Json.str s, dumpsTail []) := by
      have h1 : parseJsonValue (g + 1)
          ('"' :: (escJsonL s.toList ++ '"' :: dumpsTail [])) =
          (parseStrBody ((escJsonL s.toList ++ '"' :: dumpsTail []).length + 1)
            (escJsonL s.toList ++ '"' :: dumpsTail [])).map
            (fun p => (Json.str (String.mk p.1), p.2)) := rfl
      rw [h1, parseStrBody_escJson s.toList (dumpsTail []) _
        (by rw [List.length_append]; omega)]
      rfl
    rw [parseJsonItems_succ, hval]
    rfl
  | cons t more ih =>
    intro s f hf
    obtain ⟨g, rfl⟩ : ∃ g, f = g + 1 := ⟨f - 1, by omega⟩
    have hg : more.length + 2 ≤ g := by
      simp only [List.length_cons] at hf
      omega
    have hval : parseJsonValue g
        ('"' :: (escJsonL s.toList ++ '"' :: dumpsTail (t :: more))) =
        some (Json.str s, dumpsTail (t :: more)) := by
      obtain ⟨g2, rfl⟩ : ∃ g2, g = g2 + 1 := ⟨g - 1, by omega⟩
      have h1 : parseJsonValue (g2 + 1)
          ('"' :: (escJsonL s.toList ++ '"' :: dumpsTail (t :: more))) =
          (parseStrBody ((escJsonL s.toList ++ '"' :: dumpsTail (t :: more)).length + 1)
            (escJsonL s.toList ++ '"' :: dumpsTail (t :: more))).map
            (fun p => (Json.str (String.mk p.1), p.2)) := rfl
      rw [h1, parseStrBody_escJson s.toList (dumpsTail (t :: more)) _
        (by rw [List.length_append]; omega)]
      rfl
    rw [parseJsonItems_succ, hval]
    show (match skipWs (dumpsTail (t :: more)) with
       | ',' :: rest2 =>
         (parseJsonItems g rest2).map (fun p => (Json.str s :: p.1, p.2))
       | ']' :: rest2 => some ([Json.str s], rest2)
       | _ => none) =
      some ((s :: t :: more).map Json.str, ['\n', '\x7d'])
    have hsk : skipWs (dumpsTail (t :: more)) =
        ',' :: ('\n' :: ' ' :: ' ' :: ' ' :: ' ' :: (dumpsItem t ++ dumpsTail more)) := rfl
    rw [hsk]
    show (parseJsonItems g
        ('\n' :: ' ' :: ' ' :: ' ' :: ' ' :: (dumpsItem t ++ dumpsTail more))).map
        (fun p => (Json.str s :: p.1, p.2)) =
      some ((s :: t :: more).map Json.str, ['\n', '\x7d'])
    have hws : skipWs ('\n' :: ' ' :: ' ' :: ' ' :: ' ' :: (dumpsItem t ++ dumpsTail more)) =
        skipWs ('"' :: (escJsonL t.toList ++ '"' :: dumpsTail more)) := by
      rw [dumpsItem_shape]
      rfl
    rw [parseJsonItems_ws g _ _ hws]
    rw [ih t g hg]
    rfl

/-- The member part of dumpsSeen after the opening brace and indent
(a decomposition of dumpsSeenL used by the round-trip proof). -/
def seenArrBody : List String → List Char
  | [] => ']' :: '\n' :: '\x7d' :: []
  | s :: rest => '\n' :: ' ' :: ' ' :: ' ' :: ' ' :: (dumpsItem s ++ dumpsTail rest)

def seenMemberDump (ids : List String) : List Char :=
  '"' :: ("seen_ids".toList ++ ('"' :: ':' :: ' ' :: '[' :: seenArrBody ids))

theorem parseJsonValue_seenArr (ids : List String) :
    ∀ f, ids.length + 2 ≤ f + 1 →
      parseJsonValue (f + 1) (' ' :: '[' :: seenArrBody ids) =
        some (Json.arr (ids.map Json.str), ['\n', '\x7d']) := by
  intro f hf
  cases ids with
  | nil => rfl
  | cons s rest =>
    have h1 : parseJsonValue (f + 1) (' ' :: '[' :: seenArrBody (s :: rest)) =
        (parseJsonItems f (skipWs (seenArrBody (s :: rest)))).map
          (fun p => (Json.arr p.1, p.2)) := rfl
    have h2 : skipWs (seenArrBody (s :: rest)) =
        '"' :: (escJsonL s.toList ++ '"' :: dumpsTail rest) := by
      rw [show seenArrBody (s :: rest) =
        '\n' :: ' ' :: ' ' :: ' ' :: ' ' :: (dumpsItem s ++ dumpsTail rest) from rfl]
      rw [dumpsItem_shape]
      rfl
    rw [h1, h2]
    rw [parseJsonItems_dumps rest s f (by simp only [List.length_cons] at hf; omega)]
    rfl

theorem parseJsonMembers_seen (ids : List String) :
    ∀ g, ids.length + 2 ≤ g →
      parseJsonMembers (g + 1) (seenMemberDump ids) =
        some ([("seen_ids", Json.arr (ids.map Json.str))], []) := by
  intro g hg
  obtain ⟨f, rfl⟩ : ∃ f, g = f + 1 := ⟨g - 1, by omega⟩
  have hval := parseJsonValue_seenArr ids f (by omega)
  have hstep : parseJsonMembers (f + 1 + 1) (seenMemberDump ids) =
      (match parseJsonValue (f + 1) (' ' :: '[' :: seenArrBody ids) with
       | none => none
       | some (v, rest4) =>
         match skipWs rest4 with
         | ',' :: rest5 =>
           (parseJsonMembers (f + 1) rest5).map
             (fun p => (("seen_ids", v) :: p.1, p.2))
         | '\x7d' :: rest5 => some ([("seen_ids", v)], rest5)
         | _ => none) := rfl
  rw [hstep, hval]
  rfl

theorem dumpsTail_length_ge (items : List String) :
    items.length ≤ (dumpsTail items).length := by
  induction items with
  | nil => simp [dumpsTail]
  | cons t more ih =>
    rw [show dumpsTail (t :: more) =
      ',' :: '\n' :: ' ' :: ' ' :: ' ' :: ' ' :: (dumpsItem t ++ dumpsTail more) from rfl]
    simp only [List.length_cons, List.length_append]
    omega

/-- Round trip of the dumped state through the json.loads model. -/
theorem jsonParse_dumpsSeen (ids : List String) :
    jsonParse (dumpsSeen ids) =
      some (Json.obj [("seen_ids", Json.arr (ids.map Json.str))]) := by
  cases ids with
  | nil => rfl
  | cons s rest =>
    have hlenL : rest.length ≤ (dumpsSeenL (s :: rest)).length := by
      have h1 := dumpsTail_length_ge rest
      have h2 : (dumpsSeenL (s :: rest)).length =
          22 + ((dumpsItem s).length + (dumpsTail rest).length) := by
        rw [show dumpsSeenL (s :: rest) =
          "\x7b\n  \"seen_ids\": [\n    ".toList ++ (dumpsItem s ++ dumpsTail rest) from rfl]
        rw [List.length_append, List.length_append]
        rw [show ("\x7b\n  \"seen_ids\": [\n    ".toList).length = 22 from rfl]
      omega
    obtain ⟨f, hF, hb⟩ : ∃ f, 4 * (dumpsSeenL (s :: rest)).length + 8 = f + 2 ∧
        (s :: rest).length + 2 ≤ f := by
      refine ⟨4 * (dumpsSeenL (s :: rest)).length + 6, by omega, ?_⟩
      simp only [List.length_cons]
      omega
    obtain ⟨g, rfl⟩ : ∃ g, f = g + 1 := ⟨f - 1, by omega⟩
    have hsplit : dumpsSeenL (s :: rest) =
        '\x7b' :: '\n' :: ' ' :: ' ' :: seenMemberDump (s :: rest) := rfl
    have hstep : parseJsonValue (g + 1 + 2) (dumpsSeenL (s :: rest)) =
        (parseJsonMembers (g + 1 + 1) (seenMemberDump (s :: rest))).map
          (fun p => (Json.obj p.1, p.2)) := by
      rw [hsplit]
      rfl
    have hmem := parseJsonMembers_seen (s :: rest) (g + 1) (by
      simp only [List.length_cons] at hb ⊢
      omega)
    unfold jsonParse
    dsimp only
    rw [show (dumpsSeen (s :: rest)).toList = dumpsSeenL (s :: rest) from rfl]
    rw [hF]
    rw [hstep, hmem]
    rfl

/-! ### Load of a dumped trimmed list -/

theorem load_seen_ids_dumps (l : List String)
    (htrim : ∀ x ∈ l, pyStrip x = x) (hnd : l.Nodup) :
    load_seen_ids (.content (dumpsSeen l)) = .ok l := by
  unfold load_seen_ids
  dsimp only
  rw [jsonParse_dumpsSeen]
  dsimp only
  rw [show dictGet "seen_ids" [("seen_ids", Json.arr (l.map Json.str))] =
    some (Json.arr (l.map Json.str)) from by simp [dictGet]]
  dsimp only
  rw [show pyIterElems (Json.arr (l.map Json.str)) = some (l.map Json.str) from rfl]
  dsimp only
  have hmap : (l.map Json.str).map (fun x => pyStrip (pyStr x)) = l := by
    rw [List.map_map]
    have : ∀ x ∈ l, (fun x => pyStrip (pyStr x)) (Json.str x) = x := by
      intro x hx
      exact htrim x hx
    calc l.map ((fun x => pyStrip (pyStr x)) ∘ Json.str) = l.map id := by
          refine List.map_congr_left ?_
          intro x hx
          exact htrim x hx
      _ = l := List.map_id l
  rw [hmap]
  rw [List.dedup_eq_self.mpr hnd]

/-! ### Properties of save_trimmed -/

theorem numDescLe_trans : ∀ a b c, numDescLe a b = true → numDescLe b c = true →
    numDescLe a c = true := by
  intro a b c h1 h2
  simp only [numDescLe, decide_eq_true_eq] at *
  exact le_trans h2 h1

theorem numDescLe_total : ∀ a b, numDescLe a b = true ∨ numDescLe b a = true := by
  intro a b
  simp only [numDescLe, decide_eq_true_eq]
  exact le_total _ _

theorem take_drop_le {α : Type} (le : α → α → Bool) (l : List α) (m : Nat)
    (h : l.Pairwise (fun a b => le a b = true)) :
    ∀ x ∈ l.take m, ∀ y ∈ l.drop m, le x y = true := by
  rw [← List.take_append_drop m l] at h
  exact (List.pairwise_append.mp h).2.2

theorem mem_drop_of_not_mem_take {α : Type} (l : List α) (m : Nat) (y : α)
    (hy : y ∈ l) (hn : y ∉ l.take m) : y ∈ l.drop m := by
  rw [← List.take_append_drop m l] at hy
  rcases List.mem_append.mp hy with h | h
  · exact absurd h hn
  · exact h

theorem save_trimmed_eq (ids : List String) (m : Nat) :
    save_trimmed ids m =
      (if ((ids.map pyStrip).dedup).all (fun x => (pyIntParse x).isSome) then
        pySorted numDescLe ((ids.map pyStrip).dedup)
      else pySorted lexDescLe ((ids.map pyStrip).dedup)).take m := rfl

theorem take_sorted_trim_props (le : String → String → Bool) (ids : List String) (m : Nat) :
    ((pySorted le ((ids.map pyStrip).dedup)).take m).Nodup ∧
    (∀ x ∈ (pySorted le ((ids.map pyStrip).dedup)).take m, x ∈ (ids.map pyStrip).dedup) ∧
    (∀ x ∈ (pySorted le ((ids.map pyStrip).dedup)).take m, pyStrip x = x) := by
  have hDnd : ((ids.map pyStrip).dedup).Nodup := List.nodup_dedup _
  have hperm := pySorted_perm le ((ids.map pyStrip).dedup)
  have hsub : ∀ x ∈ (pySorted le ((ids.map pyStrip).dedup)).take m,
      x ∈ (ids.map pyStrip).dedup := by
    intro x hx
    exact hperm.mem_iff.mp (List.take_subset m _ hx)
  refine ⟨(List.take_sublist m _).nodup (hperm.symm.nodup hDnd), hsub, ?_⟩
  intro x hx
  rcases List.mem_map.mp (List.mem_dedup.mp (hsub x hx)) with ⟨y, _, hy⟩
  rw [← hy, pyStrip_idem]

theorem load_of_save_trimmed (ids : List String) (m : Nat) :
    load_seen_ids (.content (dumpsSeen (save_trimmed ids m))) = .ok (save_trimmed ids m) := by
  rw [save_trimmed_eq]
  by_cases hall : ((ids.map pyStrip).dedup).all (fun x => (pyIntParse x).isSome) = true
  · rw [if_pos hall]
    exact load_seen_ids_dumps _ (take_sorted_trim_props numDescLe ids m).2.2
      (take_sorted_trim_props numDescLe ids m).1
  · rw [if_neg hall]
    exact load_seen_ids_dumps _ (take_sorted_trim_props lexDescLe ids m).2.2
      (take_sorted_trim_props lexDescLe ids m).1

/-- C3: save keeps at most max_size ids, drawn from the trimmed set;
save then load returns exactly the kept ids; the kept ids are the
largest ones: any dropped id is ≤ any kept id under the numeric key
when every id parses with int(), and under the descending
lexicographic string order otherwise (no exception is raised in either
branch, both being total functions of the input). -/
theorem save_load_round_trip (ids : List String) (m : Nat) (_hm : 0 < m) :
    (save_trimmed ids m).length ≤ m ∧
    (∀ x ∈ save_trimmed ids m, x ∈ (ids.map pyStrip).dedup) ∧
    load_seen_ids (.content (dumpsSeen (save_trimmed ids m))) = .ok (save_trimmed ids m) ∧
    (((ids.map pyStrip).dedup).all (fun x => (pyIntParse x).isSome) = true →
      ∀ x ∈ save_trimmed ids m, ∀ y ∈ (ids.map pyStrip).dedup,
        y ∉ save_trimmed ids m → (pyIntParse y).getD 0 ≤ (pyIntParse x).getD 0) ∧
    (((ids.map pyStrip).dedup).all (fun x => (pyIntParse x).isSome) = false →
      ∀ x ∈ save_trimmed ids m, ∀ y ∈ (ids.map pyStrip).dedup,
        y ∉ save_trimmed ids m → pyStrLtL x.toList y.toList = false) := by
  have hDnd : ((ids.map pyStrip).dedup).Nodup := List.nodup_dedup _
  by_cases hall : ((ids.map pyStrip).dedup).all (fun x => (pyIntParse x).isSome) = true
  · have heq : save_trimmed ids m =
        (pySorted numDescLe ((ids.map pyStrip).dedup)).take m := by
      rw [save_trimmed_eq, if_pos hall]
    have hperm := pySorted_perm numDescLe ((ids.map pyStrip).dedup)
    have hsnd : (pySorted numDescLe ((ids.map pyStrip).dedup)).Nodup :=
      hperm.symm.nodup hDnd
    have hsub : ∀ x ∈ save_trimmed ids m, x ∈ (ids.map pyStrip).dedup := by
      intro x hx
      rw [heq] at hx
      exact hperm.mem_iff.mp (List.take_subset m _ hx)
    have htrim : ∀ x ∈ save_trimmed ids m, pyStrip x = x := by
      intro x hx
      rcases List.mem_map.mp (List.mem_dedup.mp (hsub x hx)) with ⟨y, _, hy⟩
      rw [← hy, pyStrip_idem]
    refine ⟨?_, hsub, ?_, ?_, ?_⟩
    · rw [heq]
      exact le_trans (List.length_take_le m _) (le_refl m)
    · exact load_of_save_trimmed ids m
    · intro _ x hx y hyD hyn
      have hpw := pySorted_pairwise numDescLe numDescLe_trans numDescLe_total
        ((ids.map pyStrip).dedup)
      have hyd : y ∈ (pySorted numDescLe ((ids.map pyStrip).dedup)).drop m := by
        refine mem_drop_of_not_mem_take _ m y (hperm.mem_iff.mpr hyD) ?_
        rw [← heq]
        exact hyn
      have hx2 : x ∈ (pySorted numDescLe ((ids.map pyStrip).dedup)).take m := by
        rw [← heq]; exact hx
      have := take_drop_le numDescLe _ m hpw x hx2 y hyd
      simpa [numDescLe] using this
    · intro hf
      rw [hf] at hall
      exact absurd hall Bool.false_ne_true
  · have hall2 : ((ids.map pyStrip).dedup).all (fun x => (pyIntParse x).isSome) = false :=
      Bool.eq_false_iff.mpr hall
    have heq : save_trimmed ids m =
        (pySorted lexDescLe ((ids.map pyStrip).dedup)).take m := by
      rw [save_trimmed_eq, if_neg hall]
    have hperm := pySorted_perm lexDescLe ((ids.map pyStrip).dedup)
    have hsnd : (pySorted lexDescLe ((ids.map pyStrip).dedup)).Nodup :=
      hperm.symm.nodup hDnd
    have hsub : ∀ x ∈ save_trimmed ids m, x ∈ (ids.map pyStrip).dedup := by
      intro x hx
      rw [heq] at hx
      exact hperm.mem_iff.mp (List.take_subset m _ hx)
    have htrim : ∀ x ∈ save_trimmed ids m, pyStrip x = x := by
      intro x hx
      rcases List.mem_map.mp (List.mem_dedup.mp (hsub x hx)) with ⟨y, _, hy⟩
      rw [← hy, pyStrip_idem]
    refine ⟨?_, hsub, ?_, ?_, ?_⟩
    · rw [heq]
      exact le_trans (List.length_take_le m _) (le_refl m)
    · exact load_of_save_trimmed ids m
    · intro hcontra
      rw [hcontra] at hall2
      simp at hall2
    · intro _ x hx y hyD hyn
      have hpw := pySorted_pairwise lexDescLe lexDescLe_trans lexDescLe_total
        ((ids.map pyStrip).dedup)
      have hyd : y ∈ (pySorted lexDescLe ((ids.map pyStrip).dedup)).drop m := by
        refine mem_drop_of_not_mem_take _ m y (hperm.mem_iff.mpr hyD) ?_
        rw [← heq]
        exact hyn
      have hx2 : x ∈ (pySorted lexDescLe ((ids.map pyStrip).dedup)).take m := by
        rw [← heq]; exact hx
      have := take_drop_le lexDescLe _ m hpw x hx2 y hyd
      simpa [lexDescLe, Bool.not_eq_true'] using this

/-- Witness for C3 at the inputs of the spec's own example:
save({"100", "200", "150"}, max_size=2) keeps the two numerically
largest ids and load of the written file returns them. -/
theorem save_load_round_trip_witness :
    save_trimmed ["100", "200", "150"] 2 = ["200", "150"] ∧
    load_seen_ids (.content (dumpsSeen ["200", "150"])) = .ok ["200", "150"] ∧
    (save_trimmed ["100", "200", "150"] 2).length ≤ 2 := by
  refine ⟨by decide, ?_, (save_load_round_trip ["100", "200", "150"] 2 (by decide)).1⟩
  have h := (save_load_round_trip ["100", "200", "150"] 2 (by decide)).2.2.1
  rw [show save_trimmed ["100", "200", "150"] 2 = ["200", "150"] from by decide] at h
  exact h

/-! ### C5: load never raises - refuted and amended -/

/-- C5 counterexample: "[]" is syntactically valid JSON whose top
level is a list, so json.loads succeeds but data.get raises
AttributeError past the load boundary, instead of an empty set being
returned. -/
theorem load_raises_on_array_counterexample :
    load_seen_ids (.content "[]") = .error .attributeError := rfl

/-- C5 (amended): load returns the empty set when the file is absent
or its content is not parseable as JSON; content parsing to a JSON
object never raises, except that a seen_ids entry which is a
non-iterable scalar raises TypeError; content parsing to non-object
JSON (list, string, number, boolean, null) raises AttributeError at
data.get, escaping the load boundary. -/
theorem load_seen_ids_error_behavior :
    (load_seen_ids .absent = .ok []) ∧
    (∀ s, jsonParse s = none → load_seen_ids (.content s) = .ok []) ∧
    (∀ s kvs, jsonParse s = some (.obj kvs) →
      (dictGet "seen_ids" kvs = none → load_seen_ids (.content s) = .ok []) ∧
      (∀ v, dictGet "seen_ids" kvs = some v →
        (pyIterElems v = none → load_seen_ids (.content s) = .error .typeError) ∧
        (∀ xs, pyIterElems v = some xs →
          load_seen_ids (.content s) =
            .ok ((xs.map (fun x => pyStrip (pyStr x))).dedup)))) ∧
    (∀ s j, jsonParse s = some j → (∀ kvs, j ≠ Json.obj kvs) →
      load_seen_ids (.content s) = .error .attributeError) := by
  refine ⟨rfl, ?_, ?_, ?_⟩
  · intro s hp
    unfold load_seen_ids
    dsimp only
    rw [hp]
  · intro s kvs hp
    constructor
    · intro hd
      unfold load_seen_ids
      dsimp only
      rw [hp]
      dsimp only
      rw [hd]
    · intro v hd
      constructor
      · intro hit
        unfold load_seen_ids
        dsimp only
        rw [hp]
        dsimp only
        rw [hd]
        dsimp only
        rw [hit]
      · intro xs hit
        unfold load_seen_ids
        dsimp only
        rw [hp]
        dsimp only
        rw [hd]
        dsimp only
        rw [hit]
  · intro s j hp hne
    unfold load_seen_ids
    dsimp only
    rw [hp]
    cases j with
    | obj kvs => exact absurd rfl (hne kvs)
    | null => rfl
    | bool b => rfl
    | int n => rfl
    | float lit => rfl
    | str s2 => rfl
    | arr xs => rfl

/-- Witness for C5 (amended) at concrete contents: unparseable content
gives the empty set, a dict content gives its trimmed ids, a
seen_ids scalar raises TypeError, and a top-level number raises
AttributeError. -/
theorem load_seen_ids_error_behavior_witness :
    load_seen_ids (.content "not json") = .ok [] ∧
    load_seen_ids (.content "\x7b\"seen_ids\": [\" 7 \"]\x7d") = .ok ["7"] ∧
    load_seen_ids (.content "\x7b\"seen_ids\": 5\x7d") = .error .typeError ∧
    load_seen_ids (.content "3") = .error .attributeError := by
  refine ⟨?_, ?_, ?_, ?_⟩
  · exact load_seen_ids_error_behavior.2.1 "not json" (by rfl)
  · have h := ((load_seen_ids_error_behavior.2.2.1 "\x7b\"seen_ids\": [\" 7 \"]\x7d"
      [("seen_ids", Json.arr [Json.str " 7 "])] (by rfl)).2
      (Json.arr [Json.str " 7 "]) (by rfl)).2 [Json.str " 7 "] (by rfl)
    rw [h]
    rfl
  · exact ((load_seen_ids_error_behavior.2.2.1 "\x7b\"seen_ids\": 5\x7d"
      [("seen_ids", Json.int 5)] (by rfl)).2 (Json.int 5) (by rfl)).1 (by rfl)
  · exact load_seen_ids_error_behavior.2.2.2 "3" (Json.int 3) (by rfl)
      (by intro kvs h; cases h)

/-! ### C6: save is not write-then-replace and creates no directory -/

/-- C6 counterexample: with an absent parent directory save raises
FileNotFoundError instead of creating the directory; and a crash at
the very start of the single truncating write leaves an empty file, so
the previously good persisted set {"200"} is lost (a later load gives
the empty set), contradicting the write-then-replace discipline. -/
theorem save_not_atomic_counterexample :
    save_seen_ids ["300"] 100 ⟨false, none⟩ = .error .fileNotFoundError ∧
    (save_seen_ids_crash ["300"] 100 ⟨true, some (dumpsSeen ["200"])⟩ 0).file = some "" ∧
    loadFs ⟨true, some (dumpsSeen ["200"])⟩ = .ok ["200"] ∧
    loadFs (save_seen_ids_crash ["300"] 100 ⟨true, some (dumpsSeen ["200"])⟩ 0) = .ok [] := by
  refine ⟨rfl, rfl, rfl, rfl⟩

/-- C6 (amended): save writes the serialized JSON to the target path
with one direct truncating write: when the parent directory exists the
target ends holding exactly the dump of the kept ids (and load of that
file returns them); when the parent directory is absent save raises
FileNotFoundError rather than creating it; and a crash after k
characters of the write leaves only the first k characters of the new
content in the file. -/
theorem save_direct_write (ids : List String) (m : Nat) (fs : FsState)
    (h : fs.parentExists = true) :
    save_seen_ids ids m fs =
      .ok ⟨true, some (dumpsSeen (save_trimmed ids m))⟩ ∧
    loadFs ⟨true, some (dumpsSeen (save_trimmed ids m))⟩ = .ok (save_trimmed ids m) ∧
    (∀ fs2 : FsState, fs2.parentExists = false →
      save_seen_ids ids m fs2 = .error .fileNotFoundError) ∧
    (∀ k, (save_seen_ids_crash ids m fs k).file =
      some (String.mk ((dumpsSeenL (save_trimmed ids m)).take k))) := by
  refine ⟨?_, ?_, ?_, ?_⟩
  · unfold save_seen_ids
    rw [if_pos h]
  · exact load_of_save_trimmed ids m
  · intro fs2 h2
    unfold save_seen_ids
    rw [if_neg (by rw [h2]; exact Bool.false_ne_true)]
  · intro k
    rfl

/-- Witness for C6 (amended) at concrete inputs. -/
theorem save_direct_write_witness :
    save_seen_ids ["200"] 100 ⟨true, none⟩ =
      .ok ⟨true, some (dumpsSeen (save_trimmed ["200"] 100))⟩ ∧
    save_seen_ids ["200"] 100 ⟨false, none⟩ = .error .fileNotFoundError := by
  constructor
  · exact (save_direct_write ["200"] 100 ⟨true, none⟩ rfl).1
  · exact (save_direct_write ["200"] 100 ⟨true, none⟩ rfl).2.2.1 ⟨false, none⟩ rfl
